import Mathlib

/-!
Verification development for the stickman-animator engine (src/app.js).

The engine's numeric computations (floating point in the source) are modelled
over the real numbers; the discrete parts (timeline editing, project loading,
playback time mapping) are modelled over the rationals so that they stay
computable.  Each definition carries a reference to the source lines it embeds.
-/

namespace Stickman

open Real

/-- Length helper: `Math.hypot(dx, dy)` and the inlined
`Math.sqrt(dx*dx + dy*dy)` of the source (src/app.js:795, 1434, 1439),
written with squares. -/
noncomputable def hypot (dx dy : ℝ) : ℝ := Real.sqrt (dx ^ 2 + dy ^ 2)

/-- Model of JavaScript `Math.atan2(y, x)` (used at src/app.js:816, 827, 1433,
1438), written piecewise through `Real.arctan`; `atan2 0 0 = 0` as in JS
(ignoring signed zeros). -/
noncomputable def atan2 (y x : ℝ) : ℝ :=
  if 0 < x then Real.arctan (y / x)
  else if x < 0 then
    (if 0 ≤ y then Real.arctan (y / x) + π else Real.arctan (y / x) - π)
  else if 0 < y then π / 2
  else if y < 0 then -(π / 2)
  else 0

theorem div_sqrt_one_add_div_sq {x y : ℝ} (hx : x ≠ 0) :
    Real.sqrt (1 + (y / x) ^ 2) = Real.sqrt (x ^ 2 + y ^ 2) / |x| := by
  have h1 : 1 + (y / x) ^ 2 = (x ^ 2 + y ^ 2) / x ^ 2 := by
    field_simp
  have h2 : (0 : ℝ) ≤ x ^ 2 + y ^ 2 := by positivity
  rw [h1, Real.sqrt_div h2, Real.sqrt_sq_eq_abs]

/-- Polar roundtrip on the x-coordinate: the cosine of `atan2 y x`, scaled by
the vector's length, recovers `x`.  Holds for every `(x, y)`, including the
origin. -/
theorem cos_atan2_mul (y x : ℝ) : Real.cos (atan2 y x) * hypot x y = x := by
  rcases eq_or_ne x 0 with hx | hx
  · subst hx
    unfold atan2 hypot
    simp only [lt_irrefl, if_false]
    rcases lt_trichotomy 0 y with hy | hy | hy
    · rw [if_pos hy, Real.cos_pi_div_two, zero_mul]
    · rw [if_neg (by simp [← hy]), if_neg (by simp [← hy]), Real.cos_zero,
        ← hy]
      norm_num
    · rw [if_neg (by exact not_lt.mpr hy.le), if_pos hy, Real.cos_neg,
        Real.cos_pi_div_two, zero_mul]
  · have hpos : 0 < x ^ 2 + y ^ 2 := by positivity
    have hs : 0 < Real.sqrt (x ^ 2 + y ^ 2) := Real.sqrt_pos.mpr hpos
    have key := div_sqrt_one_add_div_sq (y := y) hx
    unfold atan2 hypot
    rcases lt_or_gt_of_ne hx with hneg | hposx
    · rw [if_neg (by linarith), if_pos hneg]
      have hax : |x| = -x := abs_of_neg hneg
      rcases le_or_lt 0 y with hy | hy
      · rw [if_pos hy, Real.cos_add_pi, Real.cos_arctan, key, hax]
        field_simp
      · rw [if_neg (not_le.mpr hy), Real.cos_sub_pi, Real.cos_arctan, key, hax]
        field_simp
    · rw [if_pos hposx, Real.cos_arctan, key, abs_of_pos hposx]
      field_simp

/-- Polar roundtrip on the y-coordinate. -/
theorem sin_atan2_mul (y x : ℝ) : Real.sin (atan2 y x) * hypot x y = y := by
  rcases eq_or_ne x 0 with hx | hx
  · subst hx
    unfold atan2 hypot
    simp only [lt_irrefl, if_false]
    rcases lt_trichotomy 0 y with hy | hy | hy
    · rw [if_pos hy, Real.sin_pi_div_two, one_mul]
      simpa using Real.sqrt_sq hy.le
    · rw [if_neg (by simp [← hy]), if_neg (by simp [← hy]), Real.sin_zero,
        zero_mul, ← hy]
    · rw [if_neg (by exact not_lt.mpr hy.le), if_pos hy, Real.sin_neg,
        Real.sin_pi_div_two]
      have : Real.sqrt ((0 : ℝ) ^ 2 + y ^ 2) = -y := by
        rw [show (0 : ℝ) ^ 2 + y ^ 2 = (-y) ^ 2 by ring]
        exact Real.sqrt_sq (by linarith)
      rw [this]
      ring
  · have hpos : 0 < x ^ 2 + y ^ 2 := by positivity
    have hs : 0 < Real.sqrt (x ^ 2 + y ^ 2) := Real.sqrt_pos.mpr hpos
    have key := div_sqrt_one_add_div_sq (y := y) hx
    unfold atan2 hypot
    rcases lt_or_gt_of_ne hx with hneg | hposx
    · rw [if_neg (by linarith), if_pos hneg]
      have hax : |x| = -x := abs_of_neg hneg
      rcases le_or_lt 0 y with hy | hy
      · rw [if_pos hy, Real.sin_add_pi, Real.sin_arctan, key, hax]
        field_simp
        ring
      · rw [if_neg (not_le.mpr hy), Real.sin_sub_pi, Real.sin_arctan, key, hax]
        field_simp
        ring
    · rw [if_pos hposx, Real.sin_arctan, key, abs_of_pos hposx]
      field_simp

/-! Easing library (src/app.js:1352-1379).  Each named function is a model of
the corresponding arrow function in the `EasingFunctions` object literal. -/

/-- Easing `linear: t => t` (src/app.js:1353). -/
noncomputable def linearFn : ℝ → ℝ := fun t => t

/-- Easing `easeInOutCubic` (src/app.js:1354). -/
noncomputable def easeInOutCubicFn : ℝ → ℝ := fun t =>
  if t < 0.5 then 4 * t * t * t else (t - 1) * (2 * t - 2) * (2 * t - 2) + 1

/-- Easing `easeInQuad` (src/app.js:1355). -/
noncomputable def easeInQuadFn : ℝ → ℝ := fun t => t * t

/-- Easing `easeOutQuad` (src/app.js:1356). -/
noncomputable def easeOutQuadFn : ℝ → ℝ := fun t => t * (2 - t)

/-- Easing `easeOutBack` (src/app.js:1357-1361); `c1 = 1.70158`, `c3 = c1 + 1`. -/
noncomputable def easeOutBackFn : ℝ → ℝ := fun t =>
  1 + (1.70158 + 1) * (t - 1) ^ 3 + 1.70158 * (t - 1) ^ 2

/-- Easing `easeOutElastic` (src/app.js:1362-1365); `c4 = 2π/3`. -/
noncomputable def easeOutElasticFn : ℝ → ℝ := fun t =>
  if t = 0 then 0
  else if t = 1 then 1
  else (2 : ℝ) ^ (-10 * t) * Real.sin ((t * 10 - 0.75) * (2 * π / 3)) + 1

/-- Easing `easeOutBounce` (src/app.js:1366-1378); the source's `t -= c; n1*t*t + b`
is written with the shifted argument inlined. -/
noncomputable def easeOutBounceFn : ℝ → ℝ := fun t =>
  if t < 1 / 2.75 then 7.5625 * t * t
  else if t < 2 / 2.75 then 7.5625 * (t - 1.5 / 2.75) * (t - 1.5 / 2.75) + 0.75
  else if t < 2.5 / 2.75 then
    7.5625 * (t - 2.25 / 2.75) * (t - 2.25 / 2.75) + 0.9375
  else 7.5625 * (t - 2.625 / 2.75) * (t - 2.625 / 2.75) + 0.984375

/-- Name-indexed lookup into the `EasingFunctions` object (src/app.js:1352):
property access `EasingFunctions[name]` yields the function, or `undefined`
(`none`) for any other name. -/
noncomputable def EasingFunctions : String → Option (ℝ → ℝ)
  | "linear" => some linearFn
  | "easeInOutCubic" => some easeInOutCubicFn
  | "easeInQuad" => some easeInQuadFn
  | "easeOutQuad" => some easeOutQuadFn
  | "easeOutBack" => some easeOutBackFn
  | "easeOutElastic" => some easeOutElasticFn
  | "easeOutBounce" => some easeOutBounceFn
  | _ => none

/-- JavaScript `a || b` on an optional string (`p.easing || 'easeInOutCubic'`):
an absent value and the empty string are falsy. -/
def jsStringOr (e : Option String) (dflt : String) : String :=
  match e with
  | some s => if s = "" then dflt else s
  | none => dflt

/-- Every function stored in the easing table fixes the endpoints:
`f 0 = 0` and `f 1 = 1`. -/
theorem easing_fixes_endpoints (name : String) (f : ℝ → ℝ)
    (h : EasingFunctions name = some f) : f 0 = 0 ∧ f 1 = 1 := by
  unfold EasingFunctions at h
  split at h
  · cases h; constructor <;> norm_num [linearFn]
  · cases h; constructor <;> norm_num [easeInOutCubicFn]
  · cases h; constructor <;> norm_num [easeInQuadFn]
  · cases h; constructor <;> norm_num [easeOutQuadFn]
  · cases h; constructor <;> norm_num [easeOutBackFn]
  · cases h; constructor <;> norm_num [easeOutElasticFn]
  · cases h; constructor <;> norm_num [easeOutBounceFn]
  · cases h

/-! Pose and skeleton data model (src/app.js:50-75, §3 of the spec).
A pose is an array of exactly 12 points indexed by joint id; it is modelled
as a total function on `Fin 12`. -/

/-- One point record: joint id, absolute coordinates, and the optional
`easing` / `isIgnored` attributes (absent fields modelled by the defaults). -/
structure Pt where
  id : ℕ
  x : ℝ
  y : ℝ
  easing : Option String := none
  isIgnored : Bool := false

/-- Placeholder point, used only where JavaScript would read a hole of a
freshly allocated array; the algorithms below never actually read it. -/
def dfltPt : Pt := { id := 0, x := 0, y := 0 }

/-- A pose: exactly 12 points, one per joint id. -/
abbrev Pose := Fin 12 → Pt

/-- The parent map `PARENT_MAP` (src/app.js:50-57).  The source stores `null`
for the root (index 7); the algorithms never consult the parent of index 7,
so the root is mapped to itself here. -/
def PARENT_MAP (j : Fin 12) : Fin 12 :=
  match j.val with
  | 0 => 1
  | 1 => 2
  | 2 => 7
  | 3 => 1
  | 4 => 3
  | 5 => 1
  | 6 => 5
  | 7 => 7
  | 8 => 7
  | 9 => 8
  | 10 => 7
  | _ => 10

/-- The hardcoded topological order `FK_TRAVERSAL_ORDER` (src/app.js:1382). -/
def FK_TRAVERSAL_ORDER : List (Fin 12) := [7, 2, 8, 10, 1, 9, 11, 0, 3, 5, 4, 6]

/-- Angle normalization of `interpolatePoints` (src/app.js:1441-1443):
`while (diff < -PI) diff += 2PI; while (diff > PI) diff -= 2PI`.  The argument
is always a difference of two `atan2` values, hence lies in `(-2π, 2π)`, where
each loop body runs at most once; a single conditional per loop is therefore
the exact behavior. -/
noncomputable def normAngle (d : ℝ) : ℝ :=
  if (if d < -π then d + 2 * π else d) > π
  then (if d < -π then d + 2 * π else d) - 2 * π
  else (if d < -π then d + 2 * π else d)

/-- The normalized angle differs from the input by a multiple of `2π`. -/
theorem normAngle_cases (d : ℝ) :
    normAngle d = d ∨ normAngle d = d + 2 * π ∨ normAngle d = d - 2 * π := by
  unfold normAngle
  split_ifs <;>
    first
      | (left; ring1)
      | (right; left; ring1)
      | (right; right; ring1)

/-- Per-joint eased time of the FK interpolator (src/app.js:1390-1396): the
easing name on the target point (pose B), the default `'easeInOutCubic'` for a
falsy name, and — for a name not present in the table — the table's default
function (`EasingFunctions[defaultEasing]`). -/
noncomputable def resolveEasedT (B : Pose) (j : Fin 12) (linearT : ℝ) : ℝ :=
  match EasingFunctions (jsStringOr (B j).easing "easeInOutCubic") with
  | some fn => fn linearT
  | none => easeInOutCubicFn linearT

/-- Parent-relative angle of joint `j` in pose `P`
(`Math.atan2(dy, dx)`, src/app.js:1431-1433 and 1436-1438). -/
noncomputable def angleOf (P : Pose) (j : Fin 12) : ℝ :=
  atan2 ((P j).y - (P (PARENT_MAP j)).y) ((P j).x - (P (PARENT_MAP j)).x)

/-- Parent-relative bone length of joint `j` in pose `P`
(`Math.sqrt(dx*dx + dy*dy)`, src/app.js:1434 and 1439). -/
noncomputable def boneLen (P : Pose) (j : Fin 12) : ℝ :=
  hypot ((P j).x - (P (PARENT_MAP j)).x) ((P j).y - (P (PARENT_MAP j)).y)

/-- Blended angle `angleT = angleA + diff * tJoint` with the normalized
difference (src/app.js:1441-1445). -/
noncomputable def angleTOf (A B : Pose) (t : ℝ) (j : Fin 12) : ℝ :=
  angleOf A j + normAngle (angleOf B j - angleOf A j) * resolveEasedT B j t

/-- Blended length `lenT = lenA + (lenB - lenA) * tJoint` (src/app.js:1446). -/
noncomputable def lenTOf (A B : Pose) (t : ℝ) (j : Fin 12) : ℝ :=
  boneLen A j + (boneLen B j - boneLen A j) * resolveEasedT B j t

/-- One iteration of the child loop of `interpolatePoints`
(src/app.js:1415-1454): skip the root, otherwise write the joint's new record,
positioned relative to the already-updated parent `resultPoints[parentIdx]`. -/
noncomputable def fkStep (A B : Pose) (t : ℝ) (acc : Pose) (j : Fin 12) : Pose :=
  if j = 7 then acc
  else
    Function.update acc j
      { id := j.val
        x := (acc (PARENT_MAP j)).x + Real.cos (angleTOf A B t j) * lenTOf A B t j
        y := (acc (PARENT_MAP j)).y + Real.sin (angleTOf A B t j) * lenTOf A B t j
        easing := (B j).easing }

/-- The hierarchical FK interpolator `interpolatePoints(pointsA, pointsB, linearT)`
(src/app.js:1385-1457).  The root record (index 7) is a straight lerp at the
root's eased time; every other joint is then placed in traversal order by
`fkStep`.  Poses carry all 12 points, so the `if (!rootA || !rootB)` guard of
the source never fires and is not represented. -/
noncomputable def interpolatePoints (A B : Pose) (t : ℝ) : Pose :=
  FK_TRAVERSAL_ORDER.foldl (fkStep A B t)
    (Function.update (fun _ => dfltPt) 7
      { id := 7
        x := (A 7).x + ((B 7).x - (A 7).x) * resolveEasedT B 7 t
        y := (A 7).y + ((B 7).y - (A 7).y) * resolveEasedT B 7 t
        easing := (B 7).easing })

/-- The interpolator writes the root record (index 7) once and never again:
its value is the straight lerp of the two root positions at the root's eased
time (src/app.js:1398-1412). -/
theorem interp_apply_root (A B : Pose) (t : ℝ) :
    interpolatePoints A B t 7
      = { id := 7
          x := (A 7).x + ((B 7).x - (A 7).x) * resolveEasedT B 7 t
          y := (A 7).y + ((B 7).y - (A 7).y) * resolveEasedT B 7 t
          easing := (B 7).easing } := by
  simp [interpolatePoints, FK_TRAVERSAL_ORDER, fkStep, Function.update_apply]

set_option maxHeartbeats 2000000 in
/-- Structural fact about the traversal: every non-root joint ends up exactly
at its (already updated) parent's final position plus the polar offset
`(cos angleT * lenT, sin angleT * lenT)`.  The parent appears before the child
in `FK_TRAVERSAL_ORDER` and no index is written twice, so the parent value read
during the pass is also its final value. -/
theorem interp_parent_offset (A B : Pose) (t : ℝ) (j : Fin 12) (hj : j ≠ 7) :
    (interpolatePoints A B t j).x
        = (interpolatePoints A B t (PARENT_MAP j)).x
          + Real.cos (angleTOf A B t j) * lenTOf A B t j
    ∧ (interpolatePoints A B t j).y
        = (interpolatePoints A B t (PARENT_MAP j)).y
          + Real.sin (angleTOf A B t j) * lenTOf A B t j := by
  fin_cases j <;>
    first
      | (exact absurd rfl hj)
      | (constructor <;>
          simp [interpolatePoints, FK_TRAVERSAL_ORDER, fkStep, PARENT_MAP,
            Function.update_apply])

/-- Norm of a polar offset. -/
theorem polar_norm (θ L : ℝ) :
    Real.sqrt ((Real.cos θ * L) ^ 2 + (Real.sin θ * L) ^ 2) = |L| := by
  have h : (Real.cos θ * L) ^ 2 + (Real.sin θ * L) ^ 2 = L ^ 2 := by
    have hs := Real.sin_sq_add_cos_sq θ
    nlinarith [hs]
  rw [h, Real.sqrt_sq_eq_abs]

/-- In the interpolated pose, the distance from any non-root joint to its
parent is exactly the absolute value of the blended length `lenT`. -/
theorem boneLen_interp_eq_abs (A B : Pose) (t : ℝ) (j : Fin 12) (hj : j ≠ 7) :
    boneLen (interpolatePoints A B t) j = |lenTOf A B t j| := by
  obtain ⟨hx, hy⟩ := interp_parent_offset A B t j hj
  unfold boneLen hypot
  rw [hx, hy]
  have hx' : (interpolatePoints A B t (PARENT_MAP j)).x
        + Real.cos (angleTOf A B t j) * lenTOf A B t j
        - (interpolatePoints A B t (PARENT_MAP j)).x
      = Real.cos (angleTOf A B t j) * lenTOf A B t j := by ring
  have hy' : (interpolatePoints A B t (PARENT_MAP j)).y
        + Real.sin (angleTOf A B t j) * lenTOf A B t j
        - (interpolatePoints A B t (PARENT_MAP j)).y
      = Real.sin (angleTOf A B t j) * lenTOf A B t j := by ring
  rw [hx', hy', polar_norm]

/-- Parent-relative polar decomposition roundtrip, x-coordinate. -/
theorem cos_angleOf_mul (P : Pose) (j : Fin 12) :
    Real.cos (angleOf P j) * boneLen P j = (P j).x - (P (PARENT_MAP j)).x := by
  unfold angleOf boneLen
  exact cos_atan2_mul _ _

/-- Parent-relative polar decomposition roundtrip, y-coordinate. -/
theorem sin_angleOf_mul (P : Pose) (j : Fin 12) :
    Real.sin (angleOf P j) * boneLen P j = (P j).y - (P (PARENT_MAP j)).y := by
  unfold angleOf boneLen
  exact sin_atan2_mul _ _

/-- The per-joint eased time is `0` at `t = 0`, whatever the easing name. -/
theorem resolveEasedT_zero (B : Pose) (j : Fin 12) : resolveEasedT B j 0 = 0 := by
  unfold resolveEasedT
  cases h : EasingFunctions (jsStringOr (B j).easing "easeInOutCubic") with
  | none => show easeInOutCubicFn 0 = 0; norm_num [easeInOutCubicFn]
  | some fn => exact (easing_fixes_endpoints _ _ h).1

/-- The per-joint eased time is `1` at `t = 1`, whatever the easing name. -/
theorem resolveEasedT_one (B : Pose) (j : Fin 12) : resolveEasedT B j 1 = 1 := by
  unfold resolveEasedT
  cases h : EasingFunctions (jsStringOr (B j).easing "easeInOutCubic") with
  | none => show easeInOutCubicFn 1 = 1; norm_num [easeInOutCubicFn]
  | some fn => exact (easing_fixes_endpoints _ _ h).2

/-- Chain-induction principle for the interpolated pose: if the root matches a
target pose `P` and every joint's polar offset equals `P`'s parent-relative
offset, then the whole interpolated pose matches `P` coordinatewise. -/
theorem interp_matches (A B P : Pose) (t : ℝ)
    (hroot : (interpolatePoints A B t 7).x = (P 7).x
      ∧ (interpolatePoints A B t 7).y = (P 7).y)
    (hstep : ∀ i : Fin 12, i ≠ 7 →
      Real.cos (angleTOf A B t i) * lenTOf A B t i = (P i).x - (P (PARENT_MAP i)).x
      ∧ Real.sin (angleTOf A B t i) * lenTOf A B t i = (P i).y - (P (PARENT_MAP i)).y) :
    ∀ j : Fin 12, (interpolatePoints A B t j).x = (P j).x
      ∧ (interpolatePoints A B t j).y = (P j).y := by
  have step : ∀ i p : Fin 12, i ≠ 7 → PARENT_MAP i = p →
      ((interpolatePoints A B t p).x = (P p).x
        ∧ (interpolatePoints A B t p).y = (P p).y) →
      ((interpolatePoints A B t i).x = (P i).x
        ∧ (interpolatePoints A B t i).y = (P i).y) := by
    intro i p hi hp hpar
    obtain ⟨hx, hy⟩ := interp_parent_offset A B t i hi
    obtain ⟨ox, oy⟩ := hstep i hi
    rw [hp] at hx hy ox oy
    constructor
    · rw [hx, hpar.1, ox]; ring
    · rw [hy, hpar.2, oy]; ring
  have g02 := step 2 7 (by decide) (by decide) hroot
  have g08 := step 8 7 (by decide) (by decide) hroot
  have g10 := step 10 7 (by decide) (by decide) hroot
  have g01 := step 1 2 (by decide) (by decide) g02
  have g09 := step 9 8 (by decide) (by decide) g08
  have g11 := step 11 10 (by decide) (by decide) g10
  have g00 := step 0 1 (by decide) (by decide) g01
  have g03 := step 3 1 (by decide) (by decide) g01
  have g05 := step 5 1 (by decide) (by decide) g01
  have g04 := step 4 3 (by decide) (by decide) g03
  have g06 := step 6 5 (by decide) (by decide) g05
  intro j
  fin_cases j
  · exact g00
  · exact g01
  · exact g02
  · exact g03
  · exact g04
  · exact g05
  · exact g06
  · exact hroot
  · exact g08
  · exact g09
  · exact g10
  · exact g11

/-- C7: for every pair of 12-point poses, `interpolatePoints` at `t = 0`
returns pose A's coordinates and at `t = 1` pose B's coordinates, exactly over
the reals.  Every easing reachable from a point of B — any table entry, and
the default used for missing or unknown names — fixes the endpoints
(`f 0 = 0`, `f 1 = 1`), so no hypothesis on the easing names is needed. -/
theorem interp_endpoints_exact (A B : Pose) (j : Fin 12) :
    ((interpolatePoints A B 0 j).x = (A j).x
      ∧ (interpolatePoints A B 0 j).y = (A j).y)
    ∧ ((interpolatePoints A B 1 j).x = (B j).x
      ∧ (interpolatePoints A B 1 j).y = (B j).y) := by
  constructor
  · refine interp_matches A B A 0 ?_ ?_ j
    · rw [interp_apply_root]
      constructor
      · show (A 7).x + ((B 7).x - (A 7).x) * resolveEasedT B 7 0 = (A 7).x
        rw [resolveEasedT_zero]; ring
      · show (A 7).y + ((B 7).y - (A 7).y) * resolveEasedT B 7 0 = (A 7).y
        rw [resolveEasedT_zero]; ring
    · intro i hi
      have ha : angleTOf A B 0 i = angleOf A i := by
        unfold angleTOf; rw [resolveEasedT_zero]; ring
      have hl : lenTOf A B 0 i = boneLen A i := by
        unfold lenTOf; rw [resolveEasedT_zero]; ring
      rw [ha, hl]
      exact ⟨cos_angleOf_mul A i, sin_angleOf_mul A i⟩
  · refine interp_matches A B B 1 ?_ ?_ j
    · rw [interp_apply_root]
      constructor
      · show (A 7).x + ((B 7).x - (A 7).x) * resolveEasedT B 7 1 = (B 7).x
        rw [resolveEasedT_one]; ring
      · show (A 7).y + ((B 7).y - (A 7).y) * resolveEasedT B 7 1 = (B 7).y
        rw [resolveEasedT_one]; ring
    · intro i hi
      have hl : lenTOf A B 1 i = boneLen B i := by
        unfold lenTOf; rw [resolveEasedT_one]; ring
      have harg : angleTOf A B 1 i
          = angleOf A i + normAngle (angleOf B i - angleOf A i) := by
        unfold angleTOf; rw [resolveEasedT_one]; ring
      have hcos : Real.cos (angleTOf A B 1 i) = Real.cos (angleOf B i) := by
        rw [harg]
        rcases normAngle_cases (angleOf B i - angleOf A i) with h | h | h <;> rw [h]
        · rw [show angleOf A i + (angleOf B i - angleOf A i) = angleOf B i
            from by ring]
        · rw [show angleOf A i + (angleOf B i - angleOf A i + 2 * π)
              = angleOf B i + 2 * π from by ring, Real.cos_add_two_pi]
        · rw [show angleOf A i + (angleOf B i - angleOf A i - 2 * π)
              = angleOf B i - 2 * π from by ring, Real.cos_sub_two_pi]
      have hsin : Real.sin (angleTOf A B 1 i) = Real.sin (angleOf B i) := by
        rw [harg]
        rcases normAngle_cases (angleOf B i - angleOf A i) with h | h | h <;> rw [h]
        · rw [show angleOf A i + (angleOf B i - angleOf A i) = angleOf B i
            from by ring]
        · rw [show angleOf A i + (angleOf B i - angleOf A i + 2 * π)
              = angleOf B i + 2 * π from by ring, Real.sin_add_two_pi]
        · rw [show angleOf A i + (angleOf B i - angleOf A i - 2 * π)
              = angleOf B i - 2 * π from by ring, Real.sin_sub_two_pi]
      rw [hcos, hsin, hl]
      exact ⟨cos_angleOf_mul B i, sin_angleOf_mul B i⟩

/-- C2 (amended): for every non-root joint whose eased time lies in `[0, 1]`
(true for the five easings whose range on `[0,1]` is `[0,1]`; `easeOutBack`
and `easeOutElastic` overshoot), the distance from the joint to its parent in
the interpolated pose equals the linear blend of the endpoint bone lengths at
the joint's eased time, and never exceeds the larger endpoint length. -/
theorem interp_bone_length_eased_lerp (A B : Pose) (t : ℝ) (j : Fin 12)
    (hj : j ≠ 7) (h0 : 0 ≤ resolveEasedT B j t) (h1 : resolveEasedT B j t ≤ 1) :
    boneLen (interpolatePoints A B t) j
        = boneLen A j + (boneLen B j - boneLen A j) * resolveEasedT B j t
    ∧ boneLen (interpolatePoints A B t) j ≤ max (boneLen A j) (boneLen B j) := by
  have hA : 0 ≤ boneLen A j := Real.sqrt_nonneg _
  have hB : 0 ≤ boneLen B j := Real.sqrt_nonneg _
  have hlerp : 0 ≤ lenTOf A B t j := by
    unfold lenTOf; nlinarith
  have heq : boneLen (interpolatePoints A B t) j = lenTOf A B t j := by
    rw [boneLen_interp_eq_abs A B t j hj, abs_of_nonneg hlerp]
  constructor
  · rw [heq]; rfl
  · rw [heq]; unfold lenTOf
    rcases le_total (boneLen A j) (boneLen B j) with hab | hab
    · exact le_trans (by nlinarith) (le_max_right _ _)
    · exact le_trans (by nlinarith) (le_max_left _ _)

/-- All-zero pose used to instantiate hypotheses concretely. -/
noncomputable def zeroPose : Pose := fun j => { id := j.val, x := 0, y := 0 }

/-- Witness for C2's amended theorem at a concrete pose, joint 0, `t = 1/2`
(default easing `easeInOutCubic`, eased value `1/2 ∈ [0,1]`). -/
theorem interp_bone_length_eased_lerp_witness :
    ((0 : Fin 12) ≠ 7
      ∧ 0 ≤ resolveEasedT zeroPose 0 (1/2) ∧ resolveEasedT zeroPose 0 (1/2) ≤ 1)
    ∧ (boneLen (interpolatePoints zeroPose zeroPose (1/2)) 0
        = boneLen zeroPose 0
          + (boneLen zeroPose 0 - boneLen zeroPose 0) * resolveEasedT zeroPose 0 (1/2)
      ∧ boneLen (interpolatePoints zeroPose zeroPose (1/2)) 0
        ≤ max (boneLen zeroPose 0) (boneLen zeroPose 0)) := by
  have hres : resolveEasedT zeroPose 0 (1/2) = easeInOutCubicFn (1/2) := rfl
  have h0 : 0 ≤ resolveEasedT zeroPose 0 (1/2) := by
    rw [hres]; norm_num [easeInOutCubicFn]
  have h1 : resolveEasedT zeroPose 0 (1/2) ≤ 1 := by
    rw [hres]; norm_num [easeInOutCubicFn]
  exact ⟨⟨by decide, h0, h1⟩,
    interp_bone_length_eased_lerp zeroPose zeroPose (1/2) 0 (by decide) h0 h1⟩

/-- Pose A of the overshoot counterexample: the chain pelvis → spine → neck →
head laid along the x-axis, with the head exactly at the neck (bone length 0). -/
noncomputable def backPoseA : Pose := fun j =>
  match j.val with
  | 7 => { id := 7, x := 0, y := 0 }
  | 2 => { id := 2, x := 1, y := 0 }
  | 1 => { id := 1, x := 2, y := 0 }
  | 0 => { id := 0, x := 2, y := 0 }
  | _ => { id := j.val, x := 3, y := 0 }

/-- Pose B of the overshoot counterexample: same chain, head moved 10 units to
the right of the neck, arriving with the `easeOutBack` easing. -/
noncomputable def backPoseB : Pose := fun j =>
  match j.val with
  | 7 => { id := 7, x := 0, y := 0 }
  | 2 => { id := 2, x := 1, y := 0 }
  | 1 => { id := 1, x := 2, y := 0 }
  | 0 => { id := 0, x := 12, y := 0, easing := some "easeOutBack" }
  | _ => { id := j.val, x := 3, y := 0 }

/-- C2 counterexample: with the `easeOutBack` easing at `t = 1/2` the head-neck
bone of the interpolated pose is strictly longer than both endpoint bone
lengths (10.876975 > max 0 10), refuting the claim that the distance never
exceeds the larger endpoint length for every available easing. -/
theorem interp_bone_length_overshoot :
    boneLen backPoseA 0 = 0 ∧ boneLen backPoseB 0 = 10
    ∧ boneLen (interpolatePoints backPoseA backPoseB (1/2)) 0
        > max (boneLen backPoseA 0) (boneLen backPoseB 0) := by
  have hA : boneLen backPoseA 0 = 0 := by
    show Real.sqrt _ = 0
    norm_num [boneLen, hypot, backPoseA, PARENT_MAP]
  have hB : boneLen backPoseB 0 = 10 := by
    show Real.sqrt _ = 10
    have : ((backPoseB 0).x - (backPoseB (PARENT_MAP 0)).x) ^ 2
        + ((backPoseB 0).y - (backPoseB (PARENT_MAP 0)).y) ^ 2 = 10 ^ 2 := by
      norm_num [backPoseB, PARENT_MAP]
    rw [this, Real.sqrt_sq (by norm_num : (0:ℝ) ≤ 10)]
  have hres : resolveEasedT backPoseB 0 (1/2) = easeOutBackFn (1/2) := rfl
  have hback : easeOutBackFn (1/2) = 1.0876975 := by
    norm_num [easeOutBackFn]
  have hlen : lenTOf backPoseA backPoseB (1/2) 0 = 10.876975 := by
    unfold lenTOf
    rw [hA, hB, hres, hback]
    norm_num
  refine ⟨hA, hB, ?_⟩
  rw [boneLen_interp_eq_abs backPoseA backPoseB (1/2) 0 (by decide), hlen, hA, hB,
    abs_of_nonneg (by norm_num : (0:ℝ) ≤ 10.876975)]
  norm_num

/-! Two-joint analytic IK solver (src/app.js:787-837).  The drag-state record
`ikData` holds the three chain indices, the segment lengths `d1` (root-mid)
and `d2` (mid-effector) captured at drag start, and the bend direction.  The
solver reads the three points, computes the new mid-joint and effector
positions, and writes exactly those two entries back.  The arithmetic is
decomposed into named helpers below; each mirrors one `const` of the source. -/

structure IKData where
  rootIdx : ℕ
  jointIdx : ℕ
  effectorIdx : ℕ
  d1 : ℝ
  d2 : ℝ
  bendDir : ℝ

/-- Distance from root to target, `distTarget` (src/app.js:795). -/
noncomputable def ikDistTarget (root : Pt) (tx ty : ℝ) : ℝ :=
  hypot (tx - root.x) (ty - root.y)

/-- Clamped target distance `validDist` (src/app.js:799-807): at most
`(d1+d2)*0.9999`, at least `|d1-d2| + 0.001`. -/
noncomputable def ikValidDist (ik : IKData) (root : Pt) (tx ty : ℝ) : ℝ :=
  if ikDistTarget root tx ty > (ik.d1 + ik.d2) * 0.9999 then
    (ik.d1 + ik.d2) * 0.9999
  else if ikDistTarget root tx ty < |ik.d1 - ik.d2| + 0.001 then
    |ik.d1 - ik.d2| + 0.001
  else ikDistTarget root tx ty

/-- Law-of-cosines angle at the root, `angleAlpha` (src/app.js:811-813),
with the cosine clamped into `[-1, 1]` before `acos`. -/
noncomputable def ikAngleAlpha (ik : IKData) (root : Pt) (tx ty : ℝ) : ℝ :=
  Real.arccos (max (-1) (min 1
    ((ik.d1 * ik.d1 + ikValidDist ik root tx ty * ikValidDist ik root tx ty
        - ik.d2 * ik.d2)
      / (2 * ik.d1 * ikValidDist ik root tx ty))))

/-- Direction from root toward the target plus the signed bend,
`angleRoot = angleToTarget + angleAlpha * bendDir` (src/app.js:816-821). -/
noncomputable def ikAngleRoot (ik : IKData) (root : Pt) (tx ty : ℝ) : ℝ :=
  atan2 (ty - root.y) (tx - root.x) + ikAngleAlpha ik root tx ty * ik.bendDir

/-- New mid-joint position (src/app.js:823-824). -/
noncomputable def ikNewJointX (ik : IKData) (root : Pt) (tx ty : ℝ) : ℝ :=
  root.x + Real.cos (ikAngleRoot ik root tx ty) * ik.d1

noncomputable def ikNewJointY (ik : IKData) (root : Pt) (tx ty : ℝ) : ℝ :=
  root.y + Real.sin (ikAngleRoot ik root tx ty) * ik.d1

/-- New effector position: `d2` away from the new mid-joint in the direction
mid-joint → target (src/app.js:827-829). -/
noncomputable def ikNewEffectorX (ik : IKData) (root : Pt) (tx ty : ℝ) : ℝ :=
  ikNewJointX ik root tx ty
    + Real.cos (atan2 (ty - ikNewJointY ik root tx ty)
        (tx - ikNewJointX ik root tx ty)) * ik.d2

noncomputable def ikNewEffectorY (ik : IKData) (root : Pt) (tx ty : ℝ) : ℝ :=
  ikNewJointY ik root tx ty
    + Real.sin (atan2 (ty - ikNewJointY ik root tx ty)
        (tx - ikNewJointX ik root tx ty)) * ik.d2

/-- The solver `solveTwoJointIK(points, ikData, targetX, targetY)`
(src/app.js:787-837): all reads happen before the final two writes, which
update only `points[jointIdx]` and `points[effectorIdx]` (x and y fields). -/
noncomputable def solveTwoJointIK (points : List Pt) (ik : IKData)
    (tx ty : ℝ) : List Pt :=
  (points.set ik.jointIdx
      { points.getD ik.jointIdx dfltPt with
          x := ikNewJointX ik (points.getD ik.rootIdx dfltPt) tx ty
          y := ikNewJointY ik (points.getD ik.rootIdx dfltPt) tx ty }).set
    ik.effectorIdx
    { points.getD ik.effectorIdx dfltPt with
        x := ikNewEffectorX ik (points.getD ik.rootIdx dfltPt) tx ty
        y := ikNewEffectorY ik (points.getD ik.rootIdx dfltPt) tx ty }

/-- Distance between two point records. -/
noncomputable def ptDist (p q : Pt) : ℝ := hypot (p.x - q.x) (p.y - q.y)

/-- Reading a list at an index other than the one just written is unchanged. -/
theorem getD_set_ne {α : Type} (l : List α) (i j : ℕ) (a d : α) (h : j ≠ i) :
    (l.set i a).getD j d = l.getD j d := by
  simp [List.getD_eq_getElem?_getD, List.getElem?_set_ne (Ne.symm h)]

/-- Reading a list at the index just written yields the written value. -/
theorem getD_set_self {α : Type} (l : List α) (i : ℕ) (a d : α)
    (h : i < l.length) : (l.set i a).getD i d = a := by
  simp [List.getD_eq_getElem?_getD, List.getElem?_set_eq_of_lt a h]

/-- C9: the solver mutates only the mid-joint and effector entries — every
other index (the root included) keeps its point record, and the array length
is unchanged.  (The `ikData` record itself is only destructured, never
written, in the source.) -/
theorem solveTwoJointIK_frame (points : List Pt) (ik : IKData) (tx ty : ℝ)
    (i : ℕ) (hij : i ≠ ik.jointIdx) (hie : i ≠ ik.effectorIdx) :
    (solveTwoJointIK points ik tx ty).getD i dfltPt = points.getD i dfltPt
    ∧ (solveTwoJointIK points ik tx ty).length = points.length := by
  constructor
  · unfold solveTwoJointIK
    rw [getD_set_ne _ _ _ _ _ hie, getD_set_ne _ _ _ _ _ hij]
  · unfold solveTwoJointIK
    simp

/-- Concrete 3-point chain used to witness the IK theorems. -/
noncomputable def ikPts : List Pt :=
  [ { id := 0, x := 0, y := 0 },
    { id := 1, x := 1, y := 1 },
    { id := 2, x := 2, y := 0 } ]

/-- Concrete drag state for `ikPts`: root 0, mid 1, effector 2, unit segments. -/
noncomputable def ikDemo : IKData :=
  { rootIdx := 0, jointIdx := 1, effectorIdx := 2, d1 := 1, d2 := 1, bendDir := 1 }

/-- Witness for C9's theorem: index 0 (the root) of the demo chain is untouched
by a solve toward the target `(1.5, 0)`. -/
theorem solveTwoJointIK_frame_witness :
    (solveTwoJointIK ikPts ikDemo 1.5 0).getD 0 dfltPt = ikPts.getD 0 dfltPt
    ∧ (solveTwoJointIK ikPts ikDemo 1.5 0).length = ikPts.length :=
  solveTwoJointIK_frame ikPts ikDemo 1.5 0 0 (by norm_num [ikDemo])
    (by norm_num [ikDemo])

/-- The new mid-joint is exactly `d1` away from the root (for `0 ≤ d1`):
the solver places it polar-style at angle `angleRoot`. -/
theorem ik_dist_root_joint (ik : IKData) (root : Pt) (tx ty : ℝ)
    (hd1 : 0 ≤ ik.d1) :
    hypot (root.x - ikNewJointX ik root tx ty)
      (root.y - ikNewJointY ik root tx ty) = ik.d1 := by
  rw [show root.x - ikNewJointX ik root tx ty
      = Real.cos (ikAngleRoot ik root tx ty) * -ik.d1 from by
        unfold ikNewJointX; ring,
    show root.y - ikNewJointY ik root tx ty
      = Real.sin (ikAngleRoot ik root tx ty) * -ik.d1 from by
        unfold ikNewJointY; ring]
  unfold hypot
  rw [polar_norm, abs_neg, abs_of_nonneg hd1]

/-- The new effector is exactly `d2` away from the new mid-joint
(for `0 ≤ d2`). -/
theorem ik_dist_joint_effector (ik : IKData) (root : Pt) (tx ty : ℝ)
    (hd2 : 0 ≤ ik.d2) :
    hypot (ikNewJointX ik root tx ty - ikNewEffectorX ik root tx ty)
      (ikNewJointY ik root tx ty - ikNewEffectorY ik root tx ty) = ik.d2 := by
  rw [show ikNewJointX ik root tx ty - ikNewEffectorX ik root tx ty
      = Real.cos (atan2 (ty - ikNewJointY ik root tx ty)
          (tx - ikNewJointX ik root tx ty)) * -ik.d2 from by
        unfold ikNewEffectorX; ring,
    show ikNewJointY ik root tx ty - ikNewEffectorY ik root tx ty
      = Real.sin (atan2 (ty - ikNewJointY ik root tx ty)
          (tx - ikNewJointX ik root tx ty)) * -ik.d2 from by
        unfold ikNewEffectorY; ring]
  unfold hypot
  rw [polar_norm, abs_neg, abs_of_nonneg hd2]

/-- How far the new effector lands from the target: the absolute difference
between `d2` and the distance from the new mid-joint to the target.  (The
effector is placed `d2` along the ray mid-joint → target.) -/
theorem ik_effector_target_dist (ik : IKData) (root : Pt) (tx ty : ℝ) :
    hypot (ikNewEffectorX ik root tx ty - tx) (ikNewEffectorY ik root tx ty - ty)
      = |ik.d2 - hypot (tx - ikNewJointX ik root tx ty)
          (ty - ikNewJointY ik root tx ty)| := by
  have hc := cos_atan2_mul (ty - ikNewJointY ik root tx ty)
    (tx - ikNewJointX ik root tx ty)
  have hs := sin_atan2_mul (ty - ikNewJointY ik root tx ty)
    (tx - ikNewJointX ik root tx ty)
  rw [show ikNewEffectorX ik root tx ty - tx
      = Real.cos (atan2 (ty - ikNewJointY ik root tx ty)
          (tx - ikNewJointX ik root tx ty))
        * (ik.d2 - hypot (tx - ikNewJointX ik root tx ty)
            (ty - ikNewJointY ik root tx ty)) from by
        unfold ikNewEffectorX; linear_combination hc,
    show ikNewEffectorY ik root tx ty - ty
      = Real.sin (atan2 (ty - ikNewJointY ik root tx ty)
          (tx - ikNewJointX ik root tx ty))
        * (ik.d2 - hypot (tx - ikNewJointX ik root tx ty)
            (ty - ikNewJointY ik root tx ty)) from by
        unfold ikNewEffectorY; linear_combination hs]
  unfold hypot
  rw [polar_norm]

/-- Inside the clamped band, the clamp is a no-op: `validDist = distTarget`. -/
theorem ikValidDist_in_band (ik : IKData) (root : Pt) (tx ty : ℝ)
    (hlo : |ik.d1 - ik.d2| + 0.001 ≤ ikDistTarget root tx ty)
    (hhi : ikDistTarget root tx ty ≤ (ik.d1 + ik.d2) * 0.9999) :
    ikValidDist ik root tx ty = ikDistTarget root tx ty := by
  unfold ikValidDist
  rw [if_neg (not_lt.mpr hhi), if_neg (not_lt.mpr hlo)]

/-- Inside the clamped band the law-of-cosines quotient lies in `[-1, 1]`, the
clamp before `acos` is a no-op, and the cosine of `angleAlpha` recovers the
quotient exactly. -/
theorem ik_cos_angleAlpha (ik : IKData) (root : Pt) (tx ty : ℝ)
    (hd1 : 0 < ik.d1) (hd2 : 0 < ik.d2)
    (hlo : |ik.d1 - ik.d2| + 0.001 ≤ ikDistTarget root tx ty)
    (hhi : ikDistTarget root tx ty ≤ (ik.d1 + ik.d2) * 0.9999) :
    Real.cos (ikAngleAlpha ik root tx ty)
      = (ik.d1 * ik.d1
          + ikDistTarget root tx ty * ikDistTarget root tx ty
          - ik.d2 * ik.d2)
        / (2 * ik.d1 * ikDistTarget root tx ty) := by
  have habs : 0 ≤ |ik.d1 - ik.d2| := abs_nonneg _
  have hD : 0 < ikDistTarget root tx ty := by
    have : (0.001 : ℝ) ≤ ikDistTarget root tx ty := by linarith
    linarith
  have hDle : ikDistTarget root tx ty ≤ ik.d1 + ik.d2 := by nlinarith
  have hd1D : ik.d1 - ik.d2 ≤ ikDistTarget root tx ty := by
    have := le_abs_self (ik.d1 - ik.d2)
    linarith
  have hd2D : ik.d2 - ik.d1 ≤ ikDistTarget root tx ty := by
    have := neg_abs_le (ik.d1 - ik.d2)
    linarith
  have hden : 0 < 2 * ik.d1 * ikDistTarget root tx ty := by positivity
  have hle1 : (ik.d1 * ik.d1
        + ikDistTarget root tx ty * ikDistTarget root tx ty - ik.d2 * ik.d2)
      / (2 * ik.d1 * ikDistTarget root tx ty) ≤ 1 := by
    rw [div_le_one hden]
    nlinarith [mul_nonneg (by linarith : (0:ℝ) ≤ ik.d1 + ik.d2 - ikDistTarget root tx ty)
      (by linarith : (0:ℝ) ≤ ikDistTarget root tx ty - ik.d1 + ik.d2)]
  have hge1 : (-1 : ℝ) ≤ (ik.d1 * ik.d1
        + ikDistTarget root tx ty * ikDistTarget root tx ty - ik.d2 * ik.d2)
      / (2 * ik.d1 * ikDistTarget root tx ty) := by
    rw [le_div_iff₀ hden]
    nlinarith [mul_nonneg (by linarith : (0:ℝ) ≤ ik.d1 + ikDistTarget root tx ty - ik.d2)
      (by linarith : (0:ℝ) ≤ ik.d1 + ikDistTarget root tx ty + ik.d2)]
  unfold ikAngleAlpha
  rw [ikValidDist_in_band ik root tx ty hlo hhi, min_eq_right hle1,
    max_eq_right hge1, Real.cos_arccos hge1 hle1]

/-- Inside the clamped band the new mid-joint is exactly `d2` away from the
target (squared form): the law of cosines collapses. -/
theorem ik_joint_target_sq (ik : IKData) (root : Pt) (tx ty : ℝ)
    (hd1 : 0 < ik.d1) (hd2 : 0 < ik.d2)
    (hbend : ik.bendDir = 1 ∨ ik.bendDir = -1)
    (hlo : |ik.d1 - ik.d2| + 0.001 ≤ ikDistTarget root tx ty)
    (hhi : ikDistTarget root tx ty ≤ (ik.d1 + ik.d2) * 0.9999) :
    (tx - ikNewJointX ik root tx ty) ^ 2 + (ty - ikNewJointY ik root tx ty) ^ 2
      = ik.d2 ^ 2 := by
  have hD : 0 < ikDistTarget root tx ty := by
    have h1 : 0 ≤ |ik.d1 - ik.d2| := abs_nonneg _
    nlinarith
  have htx : Real.cos (atan2 (ty - root.y) (tx - root.x))
      * ikDistTarget root tx ty = tx - root.x := cos_atan2_mul _ _
  have hty : Real.sin (atan2 (ty - root.y) (tx - root.x))
      * ikDistTarget root tx ty = ty - root.y := sin_atan2_mul _ _
  have h1 := Real.sin_sq_add_cos_sq (atan2 (ty - root.y) (tx - root.x))
  have h2 := Real.sin_sq_add_cos_sq (ikAngleRoot ik root tx ty)
  have h3 := Real.cos_sub (ikAngleRoot ik root tx ty)
    (atan2 (ty - root.y) (tx - root.x))
  rw [show ikAngleRoot ik root tx ty - atan2 (ty - root.y) (tx - root.x)
      = ikAngleAlpha ik root tx ty * ik.bendDir from by
        unfold ikAngleRoot; ring] at h3
  have hbcos : Real.cos (ikAngleAlpha ik root tx ty * ik.bendDir)
      = Real.cos (ikAngleAlpha ik root tx ty) := by
    rcases hbend with hb | hb <;> rw [hb]
    · rw [mul_one]
    · rw [mul_neg_one, Real.cos_neg]
  rw [hbcos, ik_cos_angleAlpha ik root tx ty hd1 hd2 hlo hhi] at h3
  have hfin : ikDistTarget root tx ty ^ 2 + ik.d1 ^ 2
        - 2 * ikDistTarget root tx ty * ik.d1
          * ((ik.d1 * ik.d1
              + ikDistTarget root tx ty * ikDistTarget root tx ty
              - ik.d2 * ik.d2)
            / (2 * ik.d1 * ikDistTarget root tx ty))
      = ik.d2 ^ 2 := by
    field_simp
    ring
  simp only [ikNewJointX, ikNewJointY]
  linear_combination
    (-((tx - root.x)
        + Real.cos (atan2 (ty - root.y) (tx - root.x)) * ikDistTarget root tx ty
        - 2 * Real.cos (ikAngleRoot ik root tx ty) * ik.d1)) * htx
    + (-((ty - root.y)
        + Real.sin (atan2 (ty - root.y) (tx - root.x)) * ikDistTarget root tx ty
        - 2 * Real.sin (ikAngleRoot ik root tx ty) * ik.d1)) * hty
    + (ikDistTarget root tx ty ^ 2) * h1 + (ik.d1 ^ 2) * h2
    + (2 * ikDistTarget root tx ty * ik.d1) * h3 + hfin

/-- C3 (amended): for every drag state with positive segment lengths, a bend
direction of `±1`, distinct in-range chain indices, and a target whose
distance from the root lies in the solver's own clamped band
`[|d1-d2| + 0.001, (d1+d2)*0.9999]`, the solver output preserves both segment
lengths exactly and places the effector exactly on the target — error `0`,
not merely within an epsilon. -/
theorem ik_solver_exact_in_band (points : List Pt) (ik : IKData) (tx ty : ℝ)
    (hd1 : 0 < ik.d1) (hd2 : 0 < ik.d2)
    (hbend : ik.bendDir = 1 ∨ ik.bendDir = -1)
    (hjr : ik.jointIdx ≠ ik.rootIdx) (her : ik.effectorIdx ≠ ik.rootIdx)
    (hje : ik.jointIdx ≠ ik.effectorIdx)
    (hjl : ik.jointIdx < points.length) (hel : ik.effectorIdx < points.length)
    (hlo : |ik.d1 - ik.d2| + 0.001
      ≤ ikDistTarget (points.getD ik.rootIdx dfltPt) tx ty)
    (hhi : ikDistTarget (points.getD ik.rootIdx dfltPt) tx ty
      ≤ (ik.d1 + ik.d2) * 0.9999) :
    ptDist ((solveTwoJointIK points ik tx ty).getD ik.rootIdx dfltPt)
        ((solveTwoJointIK points ik tx ty).getD ik.jointIdx dfltPt) = ik.d1
    ∧ ptDist ((solveTwoJointIK points ik tx ty).getD ik.jointIdx dfltPt)
        ((solveTwoJointIK points ik tx ty).getD ik.effectorIdx dfltPt) = ik.d2
    ∧ ((solveTwoJointIK points ik tx ty).getD ik.effectorIdx dfltPt).x = tx
    ∧ ((solveTwoJointIK points ik tx ty).getD ik.effectorIdx dfltPt).y = ty := by
  have hresroot : (solveTwoJointIK points ik tx ty).getD ik.rootIdx dfltPt
      = points.getD ik.rootIdx dfltPt := by
    unfold solveTwoJointIK
    rw [getD_set_ne _ ik.effectorIdx ik.rootIdx _ _ (Ne.symm her),
      getD_set_ne _ ik.jointIdx ik.rootIdx _ _ (Ne.symm hjr)]
  have hresjoint : (solveTwoJointIK points ik tx ty).getD ik.jointIdx dfltPt
      = { points.getD ik.jointIdx dfltPt with
            x := ikNewJointX ik (points.getD ik.rootIdx dfltPt) tx ty
            y := ikNewJointY ik (points.getD ik.rootIdx dfltPt) tx ty } := by
    unfold solveTwoJointIK
    rw [getD_set_ne _ ik.effectorIdx ik.jointIdx _ _ hje,
      getD_set_self _ _ _ _ hjl]
  have hreseff : (solveTwoJointIK points ik tx ty).getD ik.effectorIdx dfltPt
      = { points.getD ik.effectorIdx dfltPt with
            x := ikNewEffectorX ik (points.getD ik.rootIdx dfltPt) tx ty
            y := ikNewEffectorY ik (points.getD ik.rootIdx dfltPt) tx ty } := by
    unfold solveTwoJointIK
    rw [getD_set_self _ _ _ _ (by simpa using hel)]
  have hsq := ik_joint_target_sq ik (points.getD ik.rootIdx dfltPt) tx ty
    hd1 hd2 hbend hlo hhi
  have hr : hypot (tx - ikNewJointX ik (points.getD ik.rootIdx dfltPt) tx ty)
      (ty - ikNewJointY ik (points.getD ik.rootIdx dfltPt) tx ty) = ik.d2 := by
    unfold hypot
    rw [hsq, Real.sqrt_sq hd2.le]
  refine ⟨?_, ?_, ?_, ?_⟩
  · rw [hresroot, hresjoint]
    exact ik_dist_root_joint ik (points.getD ik.rootIdx dfltPt) tx ty hd1.le
  · rw [hresjoint, hreseff]
    exact ik_dist_joint_effector ik (points.getD ik.rootIdx dfltPt) tx ty hd2.le
  · rw [hreseff]
    show ikNewEffectorX ik (points.getD ik.rootIdx dfltPt) tx ty = tx
    have hc := cos_atan2_mul
      (ty - ikNewJointY ik (points.getD ik.rootIdx dfltPt) tx ty)
      (tx - ikNewJointX ik (points.getD ik.rootIdx dfltPt) tx ty)
    rw [hr] at hc
    simp only [ikNewEffectorX]
    linear_combination hc
  · rw [hreseff]
    show ikNewEffectorY ik (points.getD ik.rootIdx dfltPt) tx ty = ty
    have hs := sin_atan2_mul
      (ty - ikNewJointY ik (points.getD ik.rootIdx dfltPt) tx ty)
      (tx - ikNewJointX ik (points.getD ik.rootIdx dfltPt) tx ty)
    rw [hr] at hs
    simp only [ikNewEffectorY]
    linear_combination hs

/-- Witness for C3's amended theorem: the unit-segment demo chain solved toward
`(1.5, 0)`, a target inside the clamped band. -/
theorem ik_solver_exact_in_band_witness :
    (|ikDemo.d1 - ikDemo.d2| + 0.001
        ≤ ikDistTarget (ikPts.getD ikDemo.rootIdx dfltPt) 1.5 0
      ∧ ikDistTarget (ikPts.getD ikDemo.rootIdx dfltPt) 1.5 0
        ≤ (ikDemo.d1 + ikDemo.d2) * 0.9999)
    ∧ (ptDist ((solveTwoJointIK ikPts ikDemo 1.5 0).getD ikDemo.rootIdx dfltPt)
          ((solveTwoJointIK ikPts ikDemo 1.5 0).getD ikDemo.jointIdx dfltPt)
        = ikDemo.d1
      ∧ ptDist ((solveTwoJointIK ikPts ikDemo 1.5 0).getD ikDemo.jointIdx dfltPt)
          ((solveTwoJointIK ikPts ikDemo 1.5 0).getD ikDemo.effectorIdx dfltPt)
        = ikDemo.d2
      ∧ ((solveTwoJointIK ikPts ikDemo 1.5 0).getD ikDemo.effectorIdx dfltPt).x
        = 1.5
      ∧ ((solveTwoJointIK ikPts ikDemo 1.5 0).getD ikDemo.effectorIdx dfltPt).y
        = 0) := by
  have hD : ikDistTarget (ikPts.getD ikDemo.rootIdx dfltPt) 1.5 0 = 1.5 := by
    show Real.sqrt ((1.5 - (0:ℝ)) ^ 2 + (0 - (0:ℝ)) ^ 2) = 1.5
    rw [show (1.5 - (0:ℝ)) ^ 2 + (0 - (0:ℝ)) ^ 2 = 1.5 ^ 2 by norm_num]
    exact Real.sqrt_sq (by norm_num)
  have hlo : |ikDemo.d1 - ikDemo.d2| + 0.001
      ≤ ikDistTarget (ikPts.getD ikDemo.rootIdx dfltPt) 1.5 0 := by
    rw [hD]; norm_num [ikDemo]
  have hhi : ikDistTarget (ikPts.getD ikDemo.rootIdx dfltPt) 1.5 0
      ≤ (ikDemo.d1 + ikDemo.d2) * 0.9999 := by
    rw [hD]; norm_num [ikDemo]
  exact ⟨⟨hlo, hhi⟩,
    ik_solver_exact_in_band ikPts ikDemo 1.5 0 (by norm_num [ikDemo])
      (by norm_num [ikDemo]) (Or.inl (by norm_num [ikDemo]))
      (by norm_num [ikDemo]) (by norm_num [ikDemo]) (by norm_num [ikDemo])
      (by norm_num [ikDemo, ikPts]) (by norm_num [ikDemo, ikPts]) hlo hhi⟩

/-- Wide drag state used for the boundary counterexample: both segments of
length 10000. -/
noncomputable def ikWide : IKData :=
  { rootIdx := 0, jointIdx := 1, effectorIdx := 2, d1 := 10000, d2 := 10000,
    bendDir := 1 }

/-- C3 counterexample: the target `(20000, 0)` lies at distance exactly
`d1 + d2` from the root — inside the claim's interval `[|d1-d2|, d1+d2]` — yet
the solver's clamping (`validDist = 19998`) makes the effector miss the target
by more than `1`, far above the source's epsilon scale (`0.001`). -/
theorem ik_boundary_target_missed :
    ikDistTarget (ikPts.getD ikWide.rootIdx dfltPt) 20000 0
        = ikWide.d1 + ikWide.d2
    ∧ ptDist ((solveTwoJointIK ikPts ikWide 20000 0).getD ikWide.effectorIdx
          dfltPt) { id := 0, x := 20000, y := 0 } > 1 := by
  have hD : ikDistTarget (ikPts.getD ikWide.rootIdx dfltPt) 20000 0 = 20000 := by
    show Real.sqrt ((20000 - (0:ℝ)) ^ 2 + (0 - (0:ℝ)) ^ 2) = 20000
    rw [show (20000 - (0:ℝ)) ^ 2 + (0 - (0:ℝ)) ^ 2 = 20000 ^ 2 by norm_num]
    exact Real.sqrt_sq (by norm_num)
  constructor
  · rw [hD]; norm_num [ikWide]
  · have hvd : ikValidDist ikWide (ikPts.getD ikWide.rootIdx dfltPt) 20000 0
        = 19998 := by
      unfold ikValidDist
      rw [hD]
      norm_num [ikWide]
    have hquot : ikWide.d1 * ikWide.d1 + (19998 : ℝ) * 19998
          - ikWide.d2 * ikWide.d2 = 19998 * 19998 := by
      norm_num [ikWide]
    have hca : Real.cos (ikAngleAlpha ikWide (ikPts.getD ikWide.rootIdx dfltPt)
        20000 0) = 9999 / 10000 := by
      unfold ikAngleAlpha
      rw [hvd]
      rw [show (ikWide.d1 * ikWide.d1 + (19998:ℝ) * 19998
            - ikWide.d2 * ikWide.d2) / (2 * ikWide.d1 * 19998) = 9999 / 10000
          from by norm_num [ikWide]]
      rw [min_eq_right (by norm_num), max_eq_right (by norm_num)]
      exact Real.cos_arccos (by norm_num) (by norm_num)
    have hsa : Real.sin (ikAngleAlpha ikWide (ikPts.getD ikWide.rootIdx dfltPt)
        20000 0) = Real.sqrt (1 - (9999 / 10000) ^ 2) := by
      unfold ikAngleAlpha
      rw [hvd]
      rw [show (ikWide.d1 * ikWide.d1 + (19998:ℝ) * 19998
            - ikWide.d2 * ikWide.d2) / (2 * ikWide.d1 * 19998) = 9999 / 10000
          from by norm_num [ikWide]]
      rw [min_eq_right (by norm_num), max_eq_right (by norm_num)]
      exact Real.sin_arccos _
    have hth0 : atan2 ((0:ℝ) - (ikPts.getD ikWide.rootIdx dfltPt).y)
        (20000 - (ikPts.getD ikWide.rootIdx dfltPt).x) = 0 := by
      show atan2 ((0:ℝ) - 0) (20000 - 0) = 0
      unfold atan2
      rw [if_pos (by norm_num : (0:ℝ) < 20000 - 0)]
      norm_num
    have hAR : ikAngleRoot ikWide (ikPts.getD ikWide.rootIdx dfltPt) 20000 0
        = ikAngleAlpha ikWide (ikPts.getD ikWide.rootIdx dfltPt) 20000 0 := by
      unfold ikAngleRoot
      rw [hth0]
      norm_num [ikWide]
    have hjx : ikNewJointX ikWide (ikPts.getD ikWide.rootIdx dfltPt) 20000 0
        = 9999 := by
      unfold ikNewJointX
      rw [hAR, hca]
      show (0:ℝ) + 9999 / 10000 * ikWide.d1 = 9999
      norm_num [ikWide]
    have hjy : ikNewJointY ikWide (ikPts.getD ikWide.rootIdx dfltPt) 20000 0
        = Real.sqrt (1 - (9999 / 10000) ^ 2) * 10000 := by
      unfold ikNewJointY
      rw [hAR, hsa]
      show (0:ℝ) + Real.sqrt (1 - (9999 / 10000) ^ 2) * ikWide.d1
          = Real.sqrt (1 - (9999 / 10000) ^ 2) * 10000
      norm_num [ikWide]
    have hr : hypot
        (20000 - ikNewJointX ikWide (ikPts.getD ikWide.rootIdx dfltPt) 20000 0)
        (0 - ikNewJointY ikWide (ikPts.getD ikWide.rootIdx dfltPt) 20000 0)
        = Real.sqrt 100040000 := by
      unfold hypot
      rw [hjx, hjy]
      rw [show (20000 - (9999:ℝ)) ^ 2
            + (0 - Real.sqrt (1 - (9999 / 10000) ^ 2) * 10000) ^ 2
          = 10001 ^ 2 + Real.sqrt (1 - (9999 / 10000) ^ 2) ^ 2 * 10000 ^ 2
          from by ring]
      rw [Real.sq_sqrt (by norm_num : (0:ℝ) ≤ 1 - (9999 / 10000) ^ 2)]
      norm_num
    have heff : (solveTwoJointIK ikPts ikWide 20000 0).getD ikWide.effectorIdx
        dfltPt
        = { ikPts.getD ikWide.effectorIdx dfltPt with
              x := ikNewEffectorX ikWide (ikPts.getD ikWide.rootIdx dfltPt)
                20000 0
              y := ikNewEffectorY ikWide (ikPts.getD ikWide.rootIdx dfltPt)
                20000 0 } := by
      unfold solveTwoJointIK
      rw [getD_set_self _ _ _ _ (by simp [ikPts, ikWide])]
    have hsqrtgt : Real.sqrt 100040000 > 10001 := by
      rw [show (100040000:ℝ) = 100040000 from rfl] at *
      exact (Real.lt_sqrt (by norm_num)).mpr (by norm_num)
    rw [heff]
    show hypot
        (ikNewEffectorX ikWide (ikPts.getD ikWide.rootIdx dfltPt) 20000 0
          - 20000)
        (ikNewEffectorY ikWide (ikPts.getD ikWide.rootIdx dfltPt) 20000 0 - 0)
        > 1
    rw [ik_effector_target_dist ikWide (ikPts.getD ikWide.rootIdx dfltPt)
      20000 0]
    rw [hr]
    rw [show ikWide.d2 = (10000:ℝ) from by norm_num [ikWide]]
    rw [abs_of_nonpos (by linarith)]
    linarith

/-! Independent-channel time sampler (src/app.js:1249-1345). -/

/-- One keyframe of the timeline: the duration to the next frame and the
stored points.  (The source frame also carries an `id` field, which the
sampler never reads.) -/
structure Frame where
  duration : ℝ
  points : List Pt

/-- Placeholder frame for out-of-range reads; the claims all carry the
well-formedness hypotheses (nonempty timeline, 12 points per frame) under
which no placeholder is ever read. -/
def dfltFrame : Frame := { duration := 0, points := [] }

/-- Cumulative start times (src/app.js:1255-1260): frame 0 starts at `t0`,
each next frame after the previous frame's duration. -/
noncomputable def startTimesFrom (t0 : ℝ) : List Frame → List ℝ
  | [] => []
  | f :: rest => t0 :: startTimesFrom (t0 + f.duration) rest

noncomputable def frameStartTimes (frames : List Frame) : List ℝ :=
  startTimesFrom 0 frames

/-- Tentative frame index (src/app.js:1276-1279): the loop keeps overwriting
`tentativeIdx` with every index whose start time is ≤ `t`, so the result is
the last such index, `0` when there is none. -/
noncomputable def tentativeIdx (starts : List ℝ) (t : ℝ) : ℕ :=
  starts.enum.foldl (fun acc p => if t ≥ p.2 then p.1 else acc) 0

/-- The stored point of joint `pIdx` at frame index `i`. -/
def pointAt (frames : List Frame) (i pIdx : ℕ) : Pt :=
  (frames.getD i dfltFrame).points.getD pIdx dfltPt

/-- The `isIgnored` flag of joint `pIdx` at frame index `i`. -/
def ignoredAt (frames : List Frame) (pIdx i : ℕ) : Bool :=
  (pointAt frames i pIdx).isIgnored

/-- Backward scan (src/app.js:1282-1293): nearest index ≤ `i` whose point for
this joint is not ignored; `none` models the fallback branch (prev stays
frame 0 at time 0). -/
def scanBack (frames : List Frame) (pIdx : ℕ) : ℕ → Option ℕ
  | 0 => if ignoredAt frames pIdx 0 then none else some 0
  | i + 1 =>
    if ignoredAt frames pIdx (i + 1) then scanBack frames pIdx i
    else some (i + 1)

/-- Forward scan (src/app.js:1296-1302): first index ≥ `i` and < length whose
point for this joint is not ignored. -/
def scanFwd (frames : List Frame) (pIdx : ℕ) (i : ℕ) : Option ℕ :=
  if h : i < frames.length then
    if ignoredAt frames pIdx i then scanFwd frames pIdx (i + 1) else some i
  else none
termination_by frames.length - i
decreasing_by omega

/-- Per-joint resolution, one iteration of the loop at src/app.js:1264-1335.
The hold branch (no later non-ignored keyframe) copies the stored previous
point.  The blend branch lerps the previous and next stored values at the
eased, clamped local time.  It returns `none` exactly where the source
crashes: for an easing name missing from the table, the fallback
`EasingFunctions[linear]` (src/app.js:1327) evaluates the undeclared
identifier `linear` and throws a ReferenceError. -/
noncomputable def samplePoint (frames : List Frame) (t : ℝ) (pIdx : ℕ) :
    Option Pt :=
  let starts := frameStartTimes frames
  let tIdx := tentativeIdx starts t
  let prevIdx := (scanBack frames pIdx tIdx).getD 0
  let prevTime := starts.getD prevIdx 0
  match scanFwd frames pIdx (tIdx + 1) with
  | none => some (pointAt frames prevIdx pIdx)
  | some nextIdx =>
    let nextTime := starts.getD nextIdx 0
    let dur := nextTime - prevTime
    let localT := max 0 (min 1 (if dur > 0.0001 then (t - prevTime) / dur else 0))
    let pS := pointAt frames prevIdx pIdx
    let pE := pointAt frames nextIdx pIdx
    match EasingFunctions (jsStringOr pE.easing "easeInOutCubic") with
    | some fn =>
      some { id := pIdx
             x := pS.x + (pE.x - pS.x) * fn localT
             y := pS.y + (pE.y - pS.y) * fn localT }
    | none => none

/-- The per-point loop of `getPoseAtTime` over an index list: builds the
result array; a crash in any iteration aborts the whole call. -/
noncomputable def sampleRange (frames : List Frame) (t : ℝ) :
    List ℕ → Option (List Pt)
  | [] => some []
  | i :: rest =>
    match samplePoint frames t i, sampleRange frames t rest with
    | some p, some r => some (p :: r)
    | _, _ => none

/-- `getPoseAtTime(globalTime)` (src/app.js:1249-1345): resolve each of the 12
joints independently against the timeline. -/
noncomputable def getPoseAtTime (frames : List Frame) (t : ℝ) :
    Option (List Pt) :=
  sampleRange frames t (List.range 12)

/-- Reading inside the bounds picks a list member. -/
theorem getD_mem {α : Type} (l : List α) (i : ℕ) (d : α) (h : i < l.length) :
    l.getD i d ∈ l := by
  have h' : l.getD i d = l[i] := by
    rw [List.getD_eq_getElem?_getD, List.getElem?_eq_getElem h]
    rfl
  rw [h']
  exact List.getElem_mem h

/-- Start times list has one entry per frame. -/
theorem length_startTimesFrom (l : List Frame) :
    ∀ t0, (startTimesFrom t0 l).length = l.length := by
  induction l with
  | nil => intro t0; rfl
  | cons f rest ih => intro t0; simp [startTimesFrom, ih]

/-- The fold computing the tentative index only ever holds the initial
accumulator or one of the enumerated indices. -/
theorem foldl_enumFrom_lt (t : ℝ) :
    ∀ (l : List ℝ) (k acc n : ℕ), acc < n → k + l.length ≤ n →
      (List.enumFrom k l).foldl (fun acc p => if t ≥ p.2 then p.1 else acc) acc
        < n := by
  intro l
  induction l with
  | nil =>
    intro k acc n h1 _
    simpa [List.enumFrom] using h1
  | cons s rest ih =>
    intro k acc n h1 h2
    simp only [List.enumFrom, List.foldl_cons]
    have hstep : (if t ≥ s then k else acc) < n := by
      split
      · simp only [List.length_cons] at h2; omega
      · exact h1
    apply ih (k + 1) _ n hstep
    simp only [List.length_cons] at h2
    omega

/-- The tentative index is always within the timeline when it is nonempty. -/
theorem tentativeIdx_lt (starts : List ℝ) (t : ℝ) (h : starts ≠ []) :
    tentativeIdx starts t < starts.length := by
  unfold tentativeIdx
  have hlen : 0 < starts.length := List.length_pos.mpr h
  have := foldl_enumFrom_lt t starts 0 0 starts.length hlen (by omega)
  simpa [List.enum] using this

/-- What the backward scan returns: a non-ignored index at or below the start
index. -/
theorem scanBack_spec (frames : List Frame) (pIdx : ℕ) :
    ∀ i m, scanBack frames pIdx i = some m →
      m ≤ i ∧ ignoredAt frames pIdx m = false := by
  intro i
  induction i with
  | zero =>
    intro m h
    by_cases hc : ignoredAt frames pIdx 0 <;> simp [scanBack, hc] at h
    subst h
    exact ⟨le_refl 0, by simpa using hc⟩
  | succ i ih =>
    intro m h
    by_cases hc : ignoredAt frames pIdx (i + 1) <;> simp [scanBack, hc] at h
    · obtain ⟨h1, h2⟩ := ih m h
      exact ⟨h1.trans (Nat.le_succ i), h2⟩
    · subst h
      exact ⟨le_refl _, by simpa using hc⟩

/-- What the forward scan returns: an in-range non-ignored index at or above
the start index. -/
theorem scanFwd_spec (frames : List Frame) (pIdx : ℕ) :
    ∀ i n, scanFwd frames pIdx i = some n →
      i ≤ n ∧ n < frames.length ∧ ignoredAt frames pIdx n = false := by
  have key : ∀ fuel i n, frames.length - i ≤ fuel →
      scanFwd frames pIdx i = some n →
      i ≤ n ∧ n < frames.length ∧ ignoredAt frames pIdx n = false := by
    intro fuel
    induction fuel with
    | zero =>
      intro i n hfu h
      rw [scanFwd] at h
      rw [dif_neg (by omega)] at h
      cases h
    | succ fuel ih =>
      intro i n hfu h
      rw [scanFwd] at h
      by_cases hlt : i < frames.length
      · rw [dif_pos hlt] at h
        by_cases hc : ignoredAt frames pIdx i
        · rw [if_pos hc] at h
          obtain ⟨h1, h2, h3⟩ := ih (i + 1) n (by omega) h
          exact ⟨by omega, h2, h3⟩
        · rw [if_neg hc] at h
          cases h
          exact ⟨le_refl _, hlt, by simpa using hc⟩
      · rw [dif_neg hlt] at h
        cases h
  intro i n h
  exact key frames.length i n (by omega) h

/-- Entry `k` of `List.range n` is `k` itself. -/
theorem getD_range (n k : ℕ) (h : k < n) : (List.range n).getD k 0 = k := by
  rw [List.getD_eq_getElem?_getD,
    List.getElem?_eq_getElem (by simpa using h)]
  simp

/-- Building block of C10: if every sampled joint resolves, the whole loop
resolves, one output entry per index, in order. -/
theorem sampleRange_spec (frames : List Frame) (t : ℝ) :
    ∀ (l : List ℕ),
      (∀ i ∈ l, ∃ p, samplePoint frames t i = some p ∧ p.id = i) →
      ∃ res, sampleRange frames t l = some res ∧ res.length = l.length
        ∧ ∀ k, k < l.length → (res.getD k dfltPt).id = l.getD k 0 := by
  intro l
  induction l with
  | nil =>
    intro _
    exact ⟨[], rfl, rfl, fun k hk => absurd hk (Nat.not_lt_zero k)⟩
  | cons i rest ih =>
    intro h
    obtain ⟨p, hp, hpid⟩ := h i (List.mem_cons_self i rest)
    obtain ⟨res, hres, hlen, hid⟩ :=
      ih (fun m hm => h m (List.mem_cons_of_mem i hm))
    refine ⟨p :: res, ?_, by simp [hlen], ?_⟩
    · simp only [sampleRange]
      rw [hp, hres]
    · intro k hk
      cases k with
      | zero => simpa using hpid
      | succ k' =>
        simp only [List.getD_cons_succ]
        exact hid k' (by simp at hk; omega)

/-- Worker lemma: for every nonempty timeline whose stored points carry
`id = i` at index `i` and only easing names that resolve in the table (any
point may also omit the easing), `getPoseAtTime` returns exactly 12 points
with `id = i` at index `i`, at every real time. -/
theorem getPose_total_of_known_easings (frames : List Frame) (t : ℝ) (hne : frames ≠ [])
    (hids : ∀ f ∈ frames, ∀ i, i < 12 → (f.points.getD i dfltPt).id = i)
    (heas : ∀ f ∈ frames, ∀ i, i < 12 →
      (EasingFunctions (jsStringOr ((f.points.getD i dfltPt).easing)
        "easeInOutCubic")).isSome = true) :
    ∃ res, getPoseAtTime frames t = some res ∧ res.length = 12
      ∧ ∀ i, i < 12 → (res.getD i dfltPt).id = i := by
  have hflen : 0 < frames.length := List.length_pos.mpr hne
  have hstlen : (frameStartTimes frames).length = frames.length :=
    length_startTimesFrom frames 0
  have hts : tentativeIdx (frameStartTimes frames) t < frames.length := by
    have hne' : frameStartTimes frames ≠ [] := by
      intro hcon
      rw [hcon] at hstlen
      simp at hstlen
      omega
    have := tentativeIdx_lt (frameStartTimes frames) t hne'
    omega
  have hsp : ∀ i, i < 12 → ∃ p, samplePoint frames t i = some p ∧ p.id = i := by
    intro i hi
    have hprev : (scanBack frames i
        (tentativeIdx (frameStartTimes frames) t)).getD 0 < frames.length := by
      cases hsb : scanBack frames i (tentativeIdx (frameStartTimes frames) t) with
      | none => simpa using hflen
      | some m =>
        have hm := (scanBack_spec frames i _ m hsb).1
        simp only [Option.getD_some]
        omega
    simp only [samplePoint]
    cases hsf : scanFwd frames i
        (tentativeIdx (frameStartTimes frames) t + 1) with
    | none =>
      refine ⟨_, rfl, ?_⟩
      exact hids (frames.getD _ dfltFrame) (getD_mem _ _ _ hprev) i hi
    | some nIdx =>
      have hn := scanFwd_spec frames i _ nIdx hsf
      have he := heas (frames.getD nIdx dfltFrame)
        (getD_mem _ _ _ hn.2.1) i hi
      obtain ⟨fn, hfn⟩ := Option.isSome_iff_exists.mp he
      have hfn' : EasingFunctions
          (jsStringOr (pointAt frames nIdx i).easing "easeInOutCubic")
          = some fn := hfn
      simp only [hfn']
      exact ⟨_, rfl, rfl⟩
  obtain ⟨res, hres, hlen, hid⟩ := sampleRange_spec frames t (List.range 12)
    (fun i hi => hsp i (List.mem_range.mp hi))
  refine ⟨res, hres, by simpa using hlen, ?_⟩
  intro i hi
  have h1 := hid i (by simpa using hi)
  rwa [getD_range 12 i hi] at h1

/-- C10 (amended): for every nonempty timeline whose stored points carry
`id = i` at index `i` and only easing names that resolve in the table (any
point may also omit its easing), `getPoseAtTime` — at every real time `t`,
negative and beyond the total duration included — returns exactly 12 points
with `id = i` at index `i`.  (Over the real-number model coordinates are
automatically finite; an unknown easing name instead crashes the sampler —
see the counterexample and C4.) -/
theorem getPose_wellformed (frames : List Frame) (t : ℝ) (hne : frames ≠ [])
    (hids : ∀ f ∈ frames, ∀ i, i < 12 → (f.points.getD i dfltPt).id = i)
    (heas : ∀ f ∈ frames, ∀ i, i < 12 →
      (EasingFunctions (jsStringOr ((f.points.getD i dfltPt).easing)
        "easeInOutCubic")).isSome = true) :
    ∃ res, getPoseAtTime frames t = some res ∧ res.length = 12
      ∧ ∀ i, i < 12 → (res.getD i dfltPt).id = i :=
  getPose_total_of_known_easings frames t hne hids heas

/-- Points for joints 1 through 11, identical across the demo timelines. -/
noncomputable def restPts : List Pt :=
  [ { id := 1, x := 1, y := 1 }, { id := 2, x := 1, y := 1 },
    { id := 3, x := 1, y := 1 }, { id := 4, x := 1, y := 1 },
    { id := 5, x := 1, y := 1 }, { id := 6, x := 1, y := 1 },
    { id := 7, x := 1, y := 1 }, { id := 8, x := 1, y := 1 },
    { id := 9, x := 1, y := 1 }, { id := 10, x := 1, y := 1 },
    { id := 11, x := 1, y := 1 } ]

/-- A full well-formed 12-point pose list. -/
noncomputable def stdPts : List Pt := { id := 0, x := 1, y := 1 } :: restPts

/-- Single-frame timeline used to instantiate C10's hypotheses. -/
noncomputable def wfFrames : List Frame := [ { duration := 0.5, points := stdPts } ]

/-- Witness for C10's amended theorem on a concrete one-frame timeline. -/
theorem getPose_wellformed_witness :
    (wfFrames ≠ []
      ∧ (∀ f ∈ wfFrames, ∀ i, i < 12 → (f.points.getD i dfltPt).id = i)
      ∧ (∀ f ∈ wfFrames, ∀ i, i < 12 →
          (EasingFunctions (jsStringOr ((f.points.getD i dfltPt).easing)
            "easeInOutCubic")).isSome = true))
    ∧ ∃ res, getPoseAtTime wfFrames 0.25 = some res ∧ res.length = 12
        ∧ ∀ i, i < 12 → (res.getD i dfltPt).id = i := by
  have h1 : wfFrames ≠ [] := by simp [wfFrames]
  have h2 : ∀ f ∈ wfFrames, ∀ i, i < 12 → (f.points.getD i dfltPt).id = i := by
    intro f hf i hi
    simp only [wfFrames, List.mem_singleton] at hf
    subst hf
    interval_cases i <;> rfl
  have h3 : ∀ f ∈ wfFrames, ∀ i, i < 12 →
      (EasingFunctions (jsStringOr ((f.points.getD i dfltPt).easing)
        "easeInOutCubic")).isSome = true := by
    intro f hf i hi
    simp only [wfFrames, List.mem_singleton] at hf
    subst hf
    interval_cases i <;> rfl
  exact ⟨⟨h1, h2, h3⟩, getPose_wellformed wfFrames 0.25 h1 h2 h3⟩

/-- A loop iteration that crashes makes the whole call crash. -/
theorem sampleRange_cons_none (frames : List Frame) (t : ℝ) (i : ℕ)
    (rest : List ℕ) (h : samplePoint frames t i = none) :
    sampleRange frames t (i :: rest) = none := by
  cases hY : sampleRange frames t rest with
  | none => simp [sampleRange, h, hY]
  | some r => simp [sampleRange, h, hY]

/-- Two-frame timeline whose second keyframe carries the unknown easing name
`"bogus"` on joint 0. -/
noncomputable def bogusFrames : List Frame :=
  [ { duration := 0.5, points := stdPts },
    { duration := 0.5,
      points := { id := 0, x := 2, y := 2, easing := some "bogus" } :: restPts } ]

/-- C4: sampling between the two keyframes with an unrecognized easing name
crashes `getPoseAtTime` instead of falling back to the default easing: the
fallback expression `EasingFunctions[linear]` (src/app.js:1327) evaluates the
undeclared identifier `linear` and throws a ReferenceError (modelled by
`none`), so the result is not the `easeInOutCubic` pose — it is no pose
at all. -/
theorem getPose_unknown_easing_crashes : getPoseAtTime bogusFrames (1/4) = none := by
  have hst : frameStartTimes bogusFrames = [0, 0.5] := by
    norm_num [frameStartTimes, startTimesFrom, bogusFrames]
  have hti : tentativeIdx [(0:ℝ), 0.5] (1/4) = 0 := by
    norm_num [tentativeIdx, List.enum, List.enumFrom]
  have hsb : scanBack bogusFrames 0 0 = some 0 := by
    simp [scanBack, show ignoredAt bogusFrames 0 0 = false from rfl]
  have hlen1 : (1:ℕ) < bogusFrames.length := by simp [bogusFrames]
  have hsf : scanFwd bogusFrames 0 1 = some 1 := by
    rw [scanFwd, dif_pos hlen1,
      if_neg (by simp [show ignoredAt bogusFrames 0 1 = false from rfl])]
  have hpe : EasingFunctions
      (jsStringOr (pointAt bogusFrames 1 0).easing "easeInOutCubic") = none := rfl
  have hsp0 : samplePoint bogusFrames (1/4) 0 = none := by
    simp only [samplePoint, hst, hti, hsb, Option.getD_some, Nat.zero_add,
      hsf, hpe]
  unfold getPoseAtTime
  rw [show List.range 12 = 0 :: [1, 2, 3, 4, 5, 6, 7, 8, 9, 10, 11] from rfl]
  exact sampleRange_cons_none bogusFrames (1/4) 0 _ hsp0

/-- Two-frame timeline, well-formed ids, with the unknown easing name
`"wiggle"` on joint 0 of the second keyframe. -/
noncomputable def wiggleFrames : List Frame :=
  [ { duration := 1, points := stdPts },
    { duration := 1,
      points := { id := 0, x := 3, y := 3, easing := some "wiggle" } :: restPts } ]

/-- C10 counterexample: a timeline satisfying the claim's hypotheses (two
frames, each holding exactly 12 points with `id = i` at index `i` — spot
facts below, the full point lists are in `wiggleFrames`) on which
`getPoseAtTime` returns no pose at all: the unknown easing name `"wiggle"`
crashes the sampler. -/
theorem getPose_not_total :
    wiggleFrames.length = 2
    ∧ (wiggleFrames.getD 0 dfltFrame).points.length = 12
    ∧ (wiggleFrames.getD 1 dfltFrame).points.length = 12
    ∧ (pointAt wiggleFrames 1 0).id = 0
    ∧ getPoseAtTime wiggleFrames (3/10) = none := by
  refine ⟨rfl, rfl, rfl, rfl, ?_⟩
  have hst : frameStartTimes wiggleFrames = [0, 1] := by
    norm_num [frameStartTimes, startTimesFrom, wiggleFrames]
  have hti : tentativeIdx [(0:ℝ), 1] (3/10) = 0 := by
    norm_num [tentativeIdx, List.enum, List.enumFrom]
  have hsb : scanBack wiggleFrames 0 0 = some 0 := by
    simp [scanBack, show ignoredAt wiggleFrames 0 0 = false from rfl]
  have hlen1 : (1:ℕ) < wiggleFrames.length := by simp [wiggleFrames]
  have hsf : scanFwd wiggleFrames 0 1 = some 1 := by
    rw [scanFwd, dif_pos hlen1,
      if_neg (by simp [show ignoredAt wiggleFrames 0 1 = false from rfl])]
  have hpe : EasingFunctions
      (jsStringOr (pointAt wiggleFrames 1 0).easing "easeInOutCubic")
      = none := rfl
  have hsp0 : samplePoint wiggleFrames (3/10) 0 = none := by
    simp only [samplePoint, hst, hti, hsb, Option.getD_some, Nat.zero_add,
      hsf, hpe]
  unfold getPoseAtTime
  rw [show List.range 12 = 0 :: [1, 2, 3, 4, 5, 6, 7, 8, 9, 10, 11] from rfl]
  exact sampleRange_cons_none wiggleFrames (3/10) 0 _ hsp0

/-- Replace the stored point of joint `j` at keyframe `k` (the in-place
mutation `frames[k].points[j] = pt` of the editing UI). -/
noncomputable def setPointAt (frames : List Frame) (k j : ℕ) (pt : Pt) :
    List Frame :=
  frames.set k
    { frames.getD k dfltFrame with
        points := (frames.getD k dfltFrame).points.set j pt }

theorem setPointAt_length (frames : List Frame) (k j : ℕ) (pt : Pt) :
    (setPointAt frames k j pt).length = frames.length := by
  simp [setPointAt]

theorem setPointAt_duration (frames : List Frame) (k j : ℕ) (pt : Pt)
    (hk : k < frames.length) (m : ℕ) :
    ((setPointAt frames k j pt).getD m dfltFrame).duration
      = (frames.getD m dfltFrame).duration := by
  unfold setPointAt
  rcases eq_or_ne m k with rfl | hmk
  · rw [getD_set_self _ _ _ _ hk]
  · rw [getD_set_ne _ _ _ _ _ hmk]

theorem startTimesFrom_congr :
    ∀ (l1 l2 : List Frame) (t0 : ℝ), l1.length = l2.length →
      (∀ m, (l1.getD m dfltFrame).duration = (l2.getD m dfltFrame).duration) →
      startTimesFrom t0 l1 = startTimesFrom t0 l2 := by
  intro l1
  induction l1 with
  | nil =>
    intro l2 t0 hlen _
    cases l2 with
    | nil => rfl
    | cons g r2 => simp at hlen
  | cons f rest ih =>
    intro l2 t0 hlen hdur
    cases l2 with
    | nil => simp at hlen
    | cons g rest2 =>
      have h0 : f.duration = g.duration := by simpa [List.getD] using hdur 0
      simp only [startTimesFrom, h0]
      rw [ih rest2 _ (by simpa using hlen)
        (fun m => by simpa [List.getD] using hdur (m + 1))]

theorem setPointAt_startTimes (frames : List Frame) (k j : ℕ) (pt : Pt)
    (hk : k < frames.length) :
    frameStartTimes (setPointAt frames k j pt) = frameStartTimes frames :=
  startTimesFrom_congr _ _ 0 (setPointAt_length frames k j pt)
    (setPointAt_duration frames k j pt hk)

/-- Reads of any other joint, or of joint `j` at any other frame, are
unchanged by the replacement. -/
theorem setPointAt_pointAt (frames : List Frame) (k j : ℕ) (pt : Pt)
    (hk : k < frames.length) (m i : ℕ) (h : m ≠ k ∨ i ≠ j) :
    pointAt (setPointAt frames k j pt) m i = pointAt frames m i := by
  unfold pointAt setPointAt
  rcases eq_or_ne m k with rfl | hmk
  · rw [getD_set_self _ _ _ _ hk]
    rcases h with h | h
    · exact absurd rfl h
    · show ((frames.getD m dfltFrame).points.set j pt).getD i dfltPt = _
      rw [getD_set_ne _ _ _ _ _ h]
  · rw [getD_set_ne _ _ _ _ _ hmk]

/-- The ignored flags of joint `j` are preserved when the replacement point is
itself flagged ignored (and the flags of other joints always are). -/
theorem setPointAt_ignored (frames : List Frame) (k j : ℕ) (pt : Pt)
    (hk : k < frames.length) (hign : ignoredAt frames j k = true)
    (hpt : pt.isIgnored = true) (m : ℕ) :
    ignoredAt (setPointAt frames k j pt) j m = ignoredAt frames j m := by
  rcases eq_or_ne m k with rfl | hmk
  · unfold ignoredAt pointAt at hign ⊢
    unfold setPointAt
    rw [getD_set_self _ _ _ _ hk]
    show (((frames.getD m dfltFrame).points.set j pt).getD j dfltPt).isIgnored = _
    rcases lt_or_ge j (frames.getD m dfltFrame).points.length with hj | hj
    · rw [getD_set_self _ _ _ _ hj, hpt, hign]
    · rw [List.set_eq_of_length_le hj]
  · unfold ignoredAt
    rw [setPointAt_pointAt frames k j pt hk m j (Or.inl hmk)]

theorem setPointAt_ignored_other (frames : List Frame) (k j : ℕ) (pt : Pt)
    (hk : k < frames.length) (i : ℕ) (hij : i ≠ j) (m : ℕ) :
    ignoredAt (setPointAt frames k j pt) i m = ignoredAt frames i m := by
  unfold ignoredAt
  rw [setPointAt_pointAt frames k j pt hk m i (Or.inr hij)]

/-- The backward scan only looks at ignored flags. -/
theorem scanBack_congr (f1 f2 : List Frame) (p : ℕ)
    (h : ∀ m, ignoredAt f1 p m = ignoredAt f2 p m) :
    ∀ i, scanBack f1 p i = scanBack f2 p i := by
  intro i
  induction i with
  | zero => simp [scanBack, h 0]
  | succ i ih => simp [scanBack, h (i + 1), ih]

/-- The forward scan only looks at the length and the ignored flags. -/
theorem scanFwd_congr (f1 f2 : List Frame) (p : ℕ)
    (hlen : f1.length = f2.length)
    (h : ∀ m, ignoredAt f1 p m = ignoredAt f2 p m) :
    ∀ i, scanFwd f1 p i = scanFwd f2 p i := by
  have key : ∀ fuel i, f1.length - i ≤ fuel → scanFwd f1 p i = scanFwd f2 p i := by
    intro fuel
    induction fuel with
    | zero =>
      intro i hfu
      conv_lhs => rw [scanFwd]
      conv_rhs => rw [scanFwd]
      rw [dif_neg (show ¬ i < f1.length by omega),
        dif_neg (show ¬ i < f2.length by omega)]
    | succ fuel ih =>
      intro i hfu
      conv_lhs => rw [scanFwd]
      conv_rhs => rw [scanFwd]
      by_cases hlt : i < f1.length
      · rw [dif_pos hlt, dif_pos (show i < f2.length by omega), h i]
        by_cases hc : ignoredAt f2 p i
        · rw [if_pos hc, if_pos hc]
          exact ih (i + 1) (by omega)
        · rw [if_neg hc, if_neg hc]
      · rw [dif_neg hlt, dif_neg (show ¬ i < f2.length by omega)]
  intro i
  exact key f1.length i (by omega)

/-- Core invariance: replacing the stored value of a joint at an ignored
keyframe `k ≥ 1` (by any other still-ignored point) does not change any
sampled joint at any time.  The scans skip ignored keyframes, the fallback
index is `0 ≠ k`, and only non-ignored indices (or index `0`) are ever read. -/
theorem samplePoint_setPointAt (frames : List Frame) (k j : ℕ) (pt : Pt)
    (t : ℝ) (hk1 : 1 ≤ k) (hk2 : k < frames.length)
    (hign : ignoredAt frames j k = true) (hpt : pt.isIgnored = true) (i : ℕ) :
    samplePoint (setPointAt frames k j pt) t i = samplePoint frames t i := by
  have hst := setPointAt_startTimes frames k j pt hk2
  by_cases hij : i = j
  · subst hij
    have higncong : ∀ m,
        ignoredAt (setPointAt frames k i pt) i m = ignoredAt frames i m :=
      setPointAt_ignored frames k i pt hk2 hign hpt
    have hsb := scanBack_congr _ _ i higncong
    have hsf := scanFwd_congr _ _ i (setPointAt_length frames k i pt) higncong
    have hprev_ne : ∀ tIdx : ℕ, (scanBack frames i tIdx).getD 0 ≠ k := by
      intro tIdx
      cases hsb' : scanBack frames i tIdx with
      | none =>
        simp only [Option.getD_none]
        omega
      | some m =>
        have hmspec := (scanBack_spec frames i tIdx m hsb').2
        simp only [Option.getD_some]
        intro hcon
        subst hcon
        rw [hign] at hmspec
        simp at hmspec
    cases hn : scanFwd frames i (tentativeIdx (frameStartTimes frames) t + 1) with
    | none =>
      simp only [samplePoint, hst, hsb, hsf, hn]
      rw [setPointAt_pointAt frames k i pt hk2 _ i (Or.inl (hprev_ne _))]
    | some nIdx =>
      have hn_ne : nIdx ≠ k := by
        have hspec := (scanFwd_spec frames i _ nIdx hn).2.2
        intro hcon
        subst hcon
        rw [hign] at hspec
        simp at hspec
      simp only [samplePoint, hst, hsb, hsf, hn]
      rw [setPointAt_pointAt frames k i pt hk2 _ i (Or.inl (hprev_ne _)),
        setPointAt_pointAt frames k i pt hk2 nIdx i (Or.inl hn_ne)]
  · have higncong : ∀ m,
        ignoredAt (setPointAt frames k j pt) i m = ignoredAt frames i m :=
      setPointAt_ignored_other frames k j pt hk2 i hij
    have hsb := scanBack_congr _ _ i higncong
    have hsf := scanFwd_congr _ _ i (setPointAt_length frames k j pt) higncong
    have hpa : ∀ m, pointAt (setPointAt frames k j pt) m i = pointAt frames m i :=
      fun m => setPointAt_pointAt frames k j pt hk2 m i (Or.inr hij)
    simp only [samplePoint, hst, hsb, hsf, hpa]

/-- C1 (amended): the sampler never uses the value stored at an ignored
keyframe `k` with `0 < k`: replacing joint `j`'s stored point at keyframe `k`
by any other ignored point leaves `getPoseAtTime` unchanged at every time `t`
(in particular at `t` = keyframe `k`'s start time).  What the sampler returns
there is the eased blend between the nearest earlier and nearest later
non-ignored keyframes of `j` — which equals the earlier keyframe's stored
value only when no later non-ignored keyframe exists or both store the same
value; see the counterexample. -/
theorem getPose_ignores_ignored_keyframe (frames : List Frame) (k j : ℕ)
    (pt : Pt) (t : ℝ) (hk1 : 1 ≤ k) (hk2 : k < frames.length)
    (hign : ignoredAt frames j k = true) (hpt : pt.isIgnored = true) :
    getPoseAtTime (setPointAt frames k j pt) t = getPoseAtTime frames t := by
  have hsp := samplePoint_setPointAt frames k j pt t hk1 hk2 hign hpt
  have hall : ∀ l : List ℕ,
      sampleRange (setPointAt frames k j pt) t l = sampleRange frames t l := by
    intro l
    induction l with
    | nil => rfl
    | cons i rest ih => simp only [sampleRange, hsp i, ih]
  exact hall (List.range 12)

/-- Two-frame timeline whose second keyframe has joint 0 ignored. -/
noncomputable def ignFrames : List Frame :=
  [ { duration := 1, points := { id := 0, x := 4, y := 4 } :: restPts },
    { duration := 1,
      points := { id := 0, x := 7, y := 7, isIgnored := true } :: restPts } ]

/-- Witness for C1's amended theorem: rewriting the ignored joint-0 point of
keyframe 1 to `(42, 43)` leaves the sampled pose at `t = 3/10` unchanged. -/
theorem getPose_ignores_ignored_keyframe_witness :
    (1 ≤ 1 ∧ 1 < ignFrames.length ∧ ignoredAt ignFrames 0 1 = true
      ∧ (Pt.mk 0 42 43 none true).isIgnored = true)
    ∧ getPoseAtTime (setPointAt ignFrames 1 0 (Pt.mk 0 42 43 none true)) (3/10)
      = getPoseAtTime ignFrames (3/10) :=
  ⟨⟨le_refl 1, by simp [ignFrames], rfl, rfl⟩,
    getPose_ignores_ignored_keyframe ignFrames 1 0 (Pt.mk 0 42 43 none true)
      (3/10) (le_refl 1) (by simp [ignFrames]) rfl rfl⟩

/-- Each entry of a successful loop result is the corresponding joint's
sample. -/
theorem sampleRange_getD (frames : List Frame) (t : ℝ) :
    ∀ (l : List ℕ) (res : List Pt), sampleRange frames t l = some res →
      ∀ k, k < l.length →
        samplePoint frames t (l.getD k 0) = some (res.getD k dfltPt) := by
  intro l
  induction l with
  | nil =>
    intro res _ k hk
    exact absurd hk (Nat.not_lt_zero k)
  | cons i rest ih =>
    intro res h k hk
    cases hp : samplePoint frames t i with
    | none =>
      rw [sampleRange_cons_none frames t i rest hp] at h
      cases h
    | some p =>
      cases hr : sampleRange frames t rest with
      | none =>
        have hnone : sampleRange frames t (i :: rest) = none := by
          simp [sampleRange, hp, hr]
        rw [hnone] at h
        cases h
      | some r =>
        have hsome : sampleRange frames t (i :: rest) = some (p :: r) := by
          simp [sampleRange, hp, hr]
        rw [hsome] at h
        cases h
        cases k with
        | zero => simpa using hp
        | succ k' =>
          simp only [List.getD_cons_succ]
          exact ih r hr k' (by simp at hk; omega)

/-- Three-frame timeline for the passthrough counterexample: joint 0 moves
`(0,0) →` (stored `(100,100)`, ignored) `→ (10,10)` with one-second keyframes,
every other joint constant. -/
noncomputable def ceFrames : List Frame :=
  [ { duration := 1, points := { id := 0, x := 0, y := 0 } :: restPts },
    { duration := 1,
      points := { id := 0, x := 100, y := 100, isIgnored := true } :: restPts },
    { duration := 1, points := { id := 0, x := 10, y := 10 } :: restPts } ]

/-- C1 counterexample: at `t = 1` — the start time of keyframe 1, where joint
0 is ignored — the sampler returns `(5, 5)`, the eased midpoint between the
neighboring non-ignored keyframes `(0,0)` and `(10,10)`, and NOT the nearest
earlier non-ignored keyframe's stored value `(0, 0)` that the claim
prescribes (nor keyframe 1's stored `(100, 100)`). -/
theorem getPose_blends_across_ignored_keyframe :
    ignoredAt ceFrames 0 1 = true
    ∧ (pointAt ceFrames 0 0).x = 0 ∧ (pointAt ceFrames 0 0).y = 0
    ∧ (pointAt ceFrames 1 0).x = 100
    ∧ (getPoseAtTime ceFrames 1).map
        (fun l => ((l.getD 0 dfltPt).x, (l.getD 0 dfltPt).y)) = some (5, 5)
    ∧ ((5 : ℝ), (5 : ℝ)) ≠ ((pointAt ceFrames 0 0).x, (pointAt ceFrames 0 0).y) := by
  have hx0 : (pointAt ceFrames 0 0).x = 0 := rfl
  have hy0 : (pointAt ceFrames 0 0).y = 0 := rfl
  refine ⟨rfl, hx0, hy0, rfl, ?_, by rw [hx0, hy0]; norm_num⟩
  have hne : ceFrames ≠ [] := by simp [ceFrames]
  have hids : ∀ f ∈ ceFrames, ∀ i, i < 12 → (f.points.getD i dfltPt).id = i := by
    intro f hf i hi
    simp only [ceFrames, List.mem_cons, List.mem_singleton,
      List.not_mem_nil, or_false] at hf
    rcases hf with hf | hf | hf <;> subst hf <;> (interval_cases i <;> rfl)
  have heas : ∀ f ∈ ceFrames, ∀ i, i < 12 →
      (EasingFunctions (jsStringOr ((f.points.getD i dfltPt).easing)
        "easeInOutCubic")).isSome = true := by
    intro f hf i hi
    simp only [ceFrames, List.mem_cons, List.mem_singleton,
      List.not_mem_nil, or_false] at hf
    rcases hf with hf | hf | hf <;> subst hf <;> (interval_cases i <;> rfl)
  obtain ⟨res, hres, hlen, _⟩ :=
    getPose_total_of_known_easings ceFrames 1 hne hids heas
  have hst : frameStartTimes ceFrames = [0, 1, 2] := by
    norm_num [frameStartTimes, startTimesFrom, ceFrames]
  have hti : tentativeIdx [(0:ℝ), 1, 2] 1 = 1 := by
    norm_num [tentativeIdx, List.enum, List.enumFrom]
  have hsb : scanBack ceFrames 0 1 = some 0 := by
    simp [scanBack, show ignoredAt ceFrames 0 1 = true from rfl,
      show ignoredAt ceFrames 0 0 = false from rfl]
  have hsf : scanFwd ceFrames 0 2 = some 2 := by
    rw [scanFwd, dif_pos (by simp [ceFrames] : (2:ℕ) < ceFrames.length),
      if_neg (by simp [show ignoredAt ceFrames 0 2 = false from rfl])]
  have hpe : EasingFunctions
      (jsStringOr (pointAt ceFrames 2 0).easing "easeInOutCubic")
      = some easeInOutCubicFn := rfl
  have hsp0 : samplePoint ceFrames 1 0
      = some { id := 0, x := 5, y := 5 } := by
    simp only [samplePoint, hst, hti, hsb, Option.getD_some, hsf, hpe]
    norm_num [show pointAt ceFrames 0 0 = { id := 0, x := 0, y := 0 } from rfl,
      show pointAt ceFrames 2 0 = { id := 0, x := 10, y := 10 } from rfl,
      easeInOutCubicFn]
  have h0 := sampleRange_getD ceFrames 1 (List.range 12) res hres 0 (by simp)
  rw [getD_range 12 0 (by norm_num)] at h0
  rw [hsp0] at h0
  have hres0 : res.getD 0 dfltPt = { id := 0, x := 5, y := 5 } :=
    (Option.some_injective _ h0).symm
  rw [hres]
  show some ((res.getD 0 dfltPt).x, (res.getD 0 dfltPt).y) = some (5, 5)
  rw [hres0]

/-! Project loading and timeline editing (src/app.js:545-581, 1146-1175) and
the playback time mapper (src/app.js:1196-1246), modelled over the rationals
so that everything stays computable.  A JavaScript number that is NaN is
modelled as `none`; a JSON field that is absent or not coercible to a number
is likewise `none` on the input side. -/

/-- A loaded point after `Number(...)` coercion: each of id/x/y is `none`
exactly when the coercion produced NaN; the easing attribute was kept only
when truthy. -/
structure JPt where
  id : Option ℚ
  x : Option ℚ
  y : Option ℚ
  easing : Option String := none
deriving DecidableEq

/-- A loaded keyframe. -/
structure JFrame where
  id : ℚ
  duration : ℚ
  points : List JPt
deriving DecidableEq

/-- The shared in-memory timeline state: `State.frames` and
`State.currentFrameIndex` (src/app.js:80-106). -/
structure StickState where
  frames : List JFrame
  currentFrameIndex : ℕ
deriving DecidableEq

/-- An input point of the JSON document: a coordinate field is `some q` when
`Number(...)` would coerce it to the (finite) number `q`, and `none` when the
field is absent or not numeric (NaN). -/
structure InPoint where
  id : Option ℚ
  x : Option ℚ
  y : Option ℚ
  easing : Option String := none
deriving DecidableEq

/-- An input keyframe: `points = none` models a frame without a points array,
on which `f.points.map` throws a TypeError.  The `id` field keeps the source's
raw truthiness test, restricted to numeric values. -/
structure InFrame where
  id : Option ℚ
  duration : Option ℚ
  points : Option (List InPoint)
deriving DecidableEq

def dfltJPt : JPt := { id := none, x := none, y := none }

def dfltJFrame : JFrame := { id := 0, duration := 0.5, points := [] }

/-- JavaScript `v || fallback` on an optional number: an absent value, NaN
and `0` are falsy. -/
def jsNumOr (v : Option ℚ) (fb : ℚ) : ℚ :=
  match v with
  | some q => if q = 0 then fb else q
  | none => fb

/-- JavaScript truthiness of an optional string (`p.easing ? ... : ...`,
src/app.js:561): absent and the empty string are falsy. -/
def jsTruthyStr (e : Option String) : Option String :=
  match e with
  | some s => if s = "" then none else some s
  | none => none

/-- Point coercion of `loadProject` (src/app.js:556-562): numeric coercion of
id/x/y — with NaN (`none`) accepted silently — and the easing attribute
spread in only when truthy. -/
def coercePoint (p : InPoint) : JPt :=
  { id := p.id, x := p.x, y := p.y, easing := jsTruthyStr p.easing }

/-- Frame coercion (src/app.js:553-563): `f.id || (Date.now() + i)`,
`Number(f.duration) || 0.5`, and the mapped points; a frame without a points
array throws (`none`). -/
def coerceFrame (dateNow : ℚ) (i : ℕ) (f : InFrame) : Option JFrame :=
  match f.points with
  | none => none
  | some pts =>
    some { id := jsNumOr f.id (dateNow + i)
           duration := jsNumOr f.duration 0.5
           points := pts.map coercePoint }

/-- The eager `keyframes.map(...)` over all frames: any throw aborts the whole
load before any state is assigned. -/
def coerceFrames (dateNow : ℚ) : ℕ → List InFrame → Option (List JFrame)
  | _, [] => some []
  | i, f :: rest =>
    match coerceFrame dateNow i f, coerceFrames dateNow (i + 1) rest with
    | some jf, some r => some (jf :: r)
    | _, _ => none

/-- `loadProject(keyframes)` (src/app.js:545-581).  Returns the new state and
whether the error handler ran (the `catch` with `alert`).  The source assigns
`State.frames` and `State.currentFrameIndex = 0` only after the whole `map`
has finished, so a throw leaves the previous state untouched. -/
def loadProject (doc : Option (List InFrame)) (dateNow : ℚ) (s : StickState) :
    StickState × Bool :=
  match doc with
  | none => (s, true)
  | some kfs =>
    if kfs.isEmpty then (s, true)
    else
      match coerceFrames dateNow 0 kfs with
      | none => (s, true)
      | some nf => ({ frames := nf, currentFrameIndex := 0 }, false)

/-- Coercion of the frame list fails exactly when some frame has no points
array. -/
theorem coerceFrames_none_iff (dateNow : ℚ) :
    ∀ (i : ℕ) (l : List InFrame),
      coerceFrames dateNow i l = none ↔ ∃ f ∈ l, f.points = none := by
  intro i l
  induction l generalizing i with
  | nil => simp [coerceFrames]
  | cons f rest ih =>
    cases hf : f.points with
    | none =>
      simp [coerceFrames, coerceFrame, hf]
    | some pts =>
      cases hr : coerceFrames dateNow (i + 1) rest with
      | none =>
        simp only [coerceFrames, coerceFrame, hf]
        simp only [hr]
        have := (ih (i + 1)).mp hr
        simp only [List.mem_cons]
        constructor
        · intro _
          obtain ⟨g, hg, hgp⟩ := this
          exact ⟨g, Or.inr hg, hgp⟩
        · intro _
          trivial
      | some r =>
        simp only [coerceFrames, coerceFrame, hf, hr]
        simp only [List.mem_cons]
        constructor
        · intro hcon; cases hcon
        · rintro ⟨g, hg | hg, hgp⟩
          · subst hg; rw [hf] at hgp; cases hgp
          · have : coerceFrames dateNow (i + 1) rest = none :=
              (ih (i + 1)).mpr ⟨g, hg, hgp⟩
            rw [hr] at this; cases this

/-- Successful coercion keeps the number of keyframes. -/
theorem coerceFrames_length (dateNow : ℚ) :
    ∀ (i : ℕ) (l : List InFrame) (nf : List JFrame),
      coerceFrames dateNow i l = some nf → nf.length = l.length := by
  intro i l
  induction l generalizing i with
  | nil =>
    intro nf h
    cases h
    rfl
  | cons f rest ih =>
    intro nf h
    cases hf : coerceFrame dateNow i f with
    | none => rw [coerceFrames, hf] at h; cases h
    | some jf =>
      cases hr : coerceFrames dateNow (i + 1) rest with
      | none => rw [coerceFrames, hf, hr] at h; cases h
      | some r =>
        rw [coerceFrames, hf, hr] at h
        cases h
        simpa using ih (i + 1) r hr

/-- C5 (amended): `loadProject` reports an error — and then leaves the state
exactly unchanged, with no partial mutation — precisely when the keyframes
list is missing or empty or some keyframe lacks a points array.  A point with
missing or non-numeric `x`/`y` is NOT rejected: `Number(...)` silently
coerces it to NaN and the frame is loaded (see the counterexample).  On
success the timeline is replaced by the coerced frames and the current index
reset to 0. -/
theorem loadProject_spec (doc : Option (List InFrame)) (dateNow : ℚ)
    (s : StickState) :
    ((loadProject doc dateNow s).2 = true
      ↔ doc = none ∨ doc = some []
        ∨ ∃ kfs, doc = some kfs ∧ ∃ f ∈ kfs, f.points = none)
    ∧ ((loadProject doc dateNow s).2 = true → (loadProject doc dateNow s).1 = s)
    ∧ ((loadProject doc dateNow s).2 = false →
        ∃ kfs nf, doc = some kfs ∧ coerceFrames dateNow 0 kfs = some nf
          ∧ (loadProject doc dateNow s).1
            = { frames := nf, currentFrameIndex := 0 }) := by
  cases doc with
  | none =>
    exact ⟨by simp [loadProject], fun _ => rfl,
      fun hcon => by simp [loadProject] at hcon⟩
  | some kfs =>
    by_cases hemp : kfs.isEmpty
    · have hkfs : kfs = [] := by simpa [List.isEmpty_iff] using hemp
      subst hkfs
      have hload : loadProject (some []) dateNow s = (s, true) := by
        simp [loadProject]
      rw [hload]
      exact ⟨by simp, fun _ => rfl, fun hcon => by simp at hcon⟩
    · cases hcf : coerceFrames dateNow 0 kfs with
      | none =>
        have hbad := (coerceFrames_none_iff dateNow 0 kfs).mp hcf
        have hload : loadProject (some kfs) dateNow s = (s, true) := by
          simp [loadProject, hemp, hcf]
        rw [hload]
        exact ⟨⟨fun _ => Or.inr (Or.inr ⟨kfs, rfl, hbad⟩), fun _ => rfl⟩,
          fun _ => rfl, fun hcon => by simp at hcon⟩
      | some nf =>
        have hgood : ¬ ∃ f ∈ kfs, f.points = none := by
          intro hcon
          have h2 := (coerceFrames_none_iff dateNow 0 kfs).mpr hcon
          rw [hcf] at h2
          exact Option.noConfusion h2
        have hload : loadProject (some kfs) dateNow s
            = ({ frames := nf, currentFrameIndex := 0 }, false) := by
          simp [loadProject, hemp, hcf]
        rw [hload]
        refine ⟨?_, fun hcon => by simp at hcon,
          fun _ => ⟨kfs, nf, rfl, hcf, rfl⟩⟩
        constructor
        · intro hcon
          exact absurd hcon (by simp)
        · rintro (hcon | hcon | ⟨kfs2, hk2, hbad⟩)
          · exact Option.noConfusion hcon
          · have h3 : kfs = [] := by injection hcon
            subst h3
            simp at hemp
          · have h3 : kfs2 = kfs := by
              injection hk2 with h4
              exact h4.symm
            subst h3
            exact absurd hbad hgood

/-- Demo in-memory state with one loaded frame. -/
def demoState : StickState :=
  { frames := [ { id := 1, duration := 1, points := [] } ],
    currentFrameIndex := 0 }

/-- Witness for C5's amended theorem: a document whose only keyframe lacks a
points array is rejected and the previous state is kept unchanged. -/
theorem loadProject_spec_witness :
    (loadProject (some [{ id := some 1, duration := some 1, points := none }])
        7 demoState).2 = true
    ∧ (loadProject (some [{ id := some 1, duration := some 1, points := none }])
        7 demoState).1 = demoState := by
  have h := loadProject_spec
    (some [{ id := some 1, duration := some 1, points := none }]) 7 demoState
  have h2 := h.1.mpr (Or.inr (Or.inr
    ⟨[{ id := some 1, duration := some 1, points := none }], rfl,
      { id := some 1, duration := some 1, points := none }, by simp, rfl⟩))
  exact ⟨h2, h.2.1 h2⟩

/-- C5 counterexample: a document whose point 0 has NO numeric `x`
(`x = none`, i.e. `Number(p.x)` is NaN) is nevertheless loaded: no error is
reported, the previous timeline is replaced, and the loaded coordinate is
NaN — refuting the claim that such input is rejected with the state kept. -/
theorem loadProject_accepts_nan_point :
    (loadProject
        (some [{ id := some 1, duration := some 2,
                 points := some [{ id := some 0, x := none, y := some 3 }] }])
        9 demoState).2 = false
    ∧ (loadProject
        (some [{ id := some 1, duration := some 2,
                 points := some [{ id := some 0, x := none, y := some 3 }] }])
        9 demoState).1 ≠ demoState
    ∧ (((loadProject
          (some [{ id := some 1, duration := some 2,
                   points := some [{ id := some 0, x := none, y := some 3 }] }])
          9 demoState).1.frames.getD 0 dfltJFrame).points.getD 0 dfltJPt).x
      = none := by
  decide

/-- JavaScript truncation toward zero (the `%` operator computes
`x - y * trunc(x / y)`). -/
def jsTrunc (q : ℚ) : ℤ := if q < 0 then -(⌊-q⌋) else ⌊q⌋

/-- The JavaScript remainder `x % y` on finite operands. -/
def jsMod (x y : ℚ) : ℚ := x - y * (jsTrunc (x / y))

/-- The effective-time computation of `playbackLoop` (src/app.js:1199-1241):
the nonpositive-duration guard substitutes `0.1` (line 1205), then the mode
chain maps the elapsed wall-clock seconds.  `loop`/`reverse` reduce `elapsed`
modulo the duration only when it strictly exceeds it; `pingpong` folds a
`2*totalDuration` cycle; `once` clamps; `effectiveTime` stays `0` for any
other mode string. -/
def effectiveTime (mode : String) (elapsed T0 : ℚ) : ℚ :=
  let T := if T0 ≤ 0 then 1/10 else T0
  if mode = "loop" then (if elapsed > T then jsMod elapsed T else elapsed)
  else if mode = "reverse" then
    T - (if elapsed > T then jsMod elapsed T else elapsed)
  else if mode = "pingpong" then
    (if jsMod elapsed (T * 2) ≤ T then jsMod elapsed (T * 2)
     else T - (jsMod elapsed (T * 2) - T))
  else if mode = "once" then (if elapsed ≥ T then T else elapsed)
  else 0

/-- The JavaScript remainder is the identity below the modulus. -/
theorem jsMod_small (e T : ℚ) (h0 : 0 ≤ e) (h1 : e < T) : jsMod e T = e := by
  unfold jsMod jsTrunc
  have hT : 0 < T := lt_of_le_of_lt h0 h1
  have hnn : ¬ e / T < 0 := not_lt.mpr (by positivity)
  rw [if_neg hnn]
  have hfl : ⌊e / T⌋ = 0 := by
    rw [Int.floor_eq_zero_iff]
    constructor
    · positivity
    · rw [div_lt_one hT]
      exact h1
  rw [hfl]
  push_cast
  ring

/-- C6 (amended): in `reverse` mode with `T > 0`, the effective time equals
`T - (elapsed mod T)` for every elapsed `e ≥ 0` EXCEPT `e = T` exactly: the
code reduces `elapsed` modulo `T` only when `elapsed > T` strictly, so at
`e = T` it returns `T - T = 0` while the claimed formula gives `T`.  In
particular the result is `T` at every multiple `k*T` with `k ≥ 2`, but `0` at
`e = T` — see the counterexample. -/
theorem reverse_mode_formula (e T : ℚ) (hT : 0 < T) (he : 0 ≤ e)
    (hne : e ≠ T) : effectiveTime "reverse" e T = T - jsMod e T := by
  unfold effectiveTime
  rw [if_neg (by decide : ¬ ("reverse" = "loop")), if_pos rfl,
    if_neg (not_le.mpr hT)]
  by_cases hgt : e > T
  · rw [if_pos hgt]
  · rw [if_neg hgt]
    rw [jsMod_small e T he (lt_of_le_of_ne (not_lt.mp hgt) hne)]

/-- C6 counterexample: at elapsed time exactly one full period (`e = T = 2`),
the code returns `0`, while the claimed formula `T - (e mod T)` gives `2`
(and `e = T` is a positive integer multiple of `T`, where the claim asserts
the result equals `T`). -/
theorem reverse_mode_at_period :
    effectiveTime "reverse" 2 2 = 0 ∧ (2:ℚ) - jsMod 2 2 = 2
    ∧ effectiveTime "reverse" 2 2 ≠ (2:ℚ) - jsMod 2 2 := by
  have hmod : jsMod (2:ℚ) 2 = 0 := by
    unfold jsMod jsTrunc
    norm_num
  have h1 : effectiveTime "reverse" 2 2 = 0 := by
    unfold effectiveTime
    rw [if_neg (by decide : ¬ ("reverse" = "loop")), if_pos rfl,
      if_neg (by norm_num : ¬ (2:ℚ) ≤ 0), if_neg (by norm_num : ¬ (2:ℚ) > 2)]
    norm_num
  refine ⟨h1, by rw [hmod]; norm_num, ?_⟩
  rw [h1, hmod]
  norm_num

/-- Witness for C6's amended theorem: `e = 5`, `T = 2` (the formula gives
`2 - 1 = 1`). -/
theorem reverse_mode_formula_witness :
    ((0:ℚ) < 2 ∧ (0:ℚ) ≤ 5 ∧ (5:ℚ) ≠ 2)
    ∧ effectiveTime "reverse" 5 2 = 2 - jsMod 5 2 :=
  ⟨⟨by norm_num, by norm_num, by norm_num⟩,
    reverse_mode_formula 5 2 (by norm_num) (by norm_num) (by norm_num)⟩

/-- `deleteFrame(index)` (src/app.js:1164-1175): refuse to delete the last
remaining frame; otherwise splice it out and pull the current index back into
range. -/
def deleteFrame (index : ℕ) (s : StickState) : StickState :=
  if s.frames.length ≤ 1 then s
  else
    { frames := s.frames.take index ++ s.frames.drop (index + 1)
      currentFrameIndex :=
        if s.currentFrameIndex
            ≥ (s.frames.take index ++ s.frames.drop (index + 1)).length
        then (s.frames.take index ++ s.frames.drop (index + 1)).length - 1
        else s.currentFrameIndex }

/-- `addNewFrame()` (src/app.js:1146-1162): deep-copy the current frame's
points (a value copy in this model), splice the new frame in right after the
current index, and advance the index. -/
def addNewFrame (dateNow : ℚ) (s : StickState) : StickState :=
  { frames := s.frames.take (s.currentFrameIndex + 1)
      ++ { id := dateNow, duration := 0.5,
           points := (s.frames.getD s.currentFrameIndex dfltJFrame).points }
        :: s.frames.drop (s.currentFrameIndex + 1)
    currentFrameIndex := s.currentFrameIndex + 1 }

/-- C8: the timeline never becomes empty.  Deleting from a one-frame timeline
is a complete no-op (frames and current index unchanged), and none of
`deleteFrame`, `addNewFrame`, `loadProject` can take a nonempty timeline to an
empty one (`loadProject` rejects empty keyframe lists and keeps the previous
state on error). -/
theorem timeline_never_empty (s : StickState) (i : ℕ)
    (doc : Option (List InFrame)) (dateNow : ℚ)
    (h1 : 1 ≤ s.frames.length) :
    (s.frames.length = 1 → deleteFrame i s = s)
    ∧ 1 ≤ (deleteFrame i s).frames.length
    ∧ 1 ≤ (addNewFrame dateNow s).frames.length
    ∧ 1 ≤ ((loadProject doc dateNow s).1).frames.length := by
  refine ⟨?_, ?_, ?_, ?_⟩
  · intro hone
    unfold deleteFrame
    rw [if_pos (by omega)]
  · unfold deleteFrame
    by_cases hle : s.frames.length ≤ 1
    · rw [if_pos hle]
      exact h1
    · rw [if_neg hle]
      simp only [List.length_append, List.length_take, List.length_drop]
      omega
  · unfold addNewFrame
    simp only [List.length_append, List.length_take, List.length_cons,
      List.length_drop]
    omega
  · cases doc with
    | none => exact h1
    | some kfs =>
      by_cases hemp : kfs.isEmpty
      · have hload : loadProject (some kfs) dateNow s = (s, true) := by
          simp [loadProject, hemp]
        rw [hload]
        exact h1
      · cases hcf : coerceFrames dateNow 0 kfs with
        | none =>
          have hload : loadProject (some kfs) dateNow s = (s, true) := by
            simp [loadProject, hemp, hcf]
          rw [hload]
          exact h1
        | some nf =>
          have hload : loadProject (some kfs) dateNow s
              = ({ frames := nf, currentFrameIndex := 0 }, false) := by
            simp [loadProject, hemp, hcf]
          rw [hload]
          have hlen := coerceFrames_length dateNow 0 kfs nf hcf
          have hne : kfs ≠ [] := by simpa [List.isEmpty_iff] using hemp
          have hpos : 0 < kfs.length := List.length_pos.mpr hne
          show 1 ≤ nf.length
          omega

/-- Witness for C8's theorem on a concrete one-frame state. -/
theorem timeline_never_empty_witness :
    (1 ≤ demoState.frames.length ∧ demoState.frames.length = 1)
    ∧ (deleteFrame 0 demoState = demoState
      ∧ 1 ≤ (deleteFrame 0 demoState).frames.length
      ∧ 1 ≤ (addNewFrame 5 demoState).frames.length
      ∧ 1 ≤ ((loadProject none 5 demoState).1).frames.length) := by
  have h := timeline_never_empty demoState 0 none 5 (by decide)
  exact ⟨⟨by decide, by decide⟩, ⟨h.1 (by decide), h.2.1, h.2.2.1, h.2.2.2⟩⟩

end Stickman
